import Mathlib

/-!
Verification development for the die-cut drawing automation core.

The definitions below are a shallow embedding of the Python sources under
`src/domain`.  Machine floating point numbers are modelled as exact numbers:
rational numbers (`ℚ`) wherever the Python code only performs field
operations and comparisons, and real numbers (`ℝ`) where the code calls
`math.sqrt` / trigonometric functions (polyline bulge-to-arc conversion and
Euclidean lengths).  Python `round` (banker's rounding, half to even) is
embedded explicitly.  Comparisons of two Euclidean distances are embedded as
comparisons of squared distances, which order identically.
-/

namespace DieCut

/-- Category of a line, from `src/domain/types.py` (`LineCategory`). -/
inductive LineCategory where
  | CUT
  | CREASE
  | AUXILIARY
  | PLYWOOD
  | UNKNOWN
deriving DecidableEq

/-- Removal modes from `src/domain/services/element_remover.py` (`RemovalMode`). -/
inductive RemovalMode where
  | REMOVE_ALL
  | KEEP_AUXILIARY
  | KEEP_TEXT
  | CONFIRM_EACH
deriving DecidableEq

/-- A 2D point, from `src/domain/entities/point.py`, parametrised by the
number type used to model `float`. -/
structure Pt (α : Type) where
  x : α
  y : α
deriving DecidableEq

/-- Mirror a point across the vertical axis `x = center_x`
(`Point.mirror_x`). -/
def Pt.mirror_x {α : Type} [CommRing α] (p : Pt α) (center_x : α) : Pt α :=
  ⟨2 * center_x - p.x, p.y⟩

/-- A line entity, from `src/domain/entities/line.py`.  The Python field
`end` is a Lean keyword and is called `endp` here.  The entity `id` field is
omitted: it is excluded from dataclass comparison (`compare=False`) and
freshly generated for every derived entity. -/
structure Line (α : Type) where
  start : Pt α
  endp : Pt α
  layer : String
  color : ℤ
  linetype : String
  category : LineCategory
deriving DecidableEq

/-- An arc entity, from `src/domain/entities/arc.py`.  Angles are in
degrees, as in the source. -/
structure Arc (α : Type) where
  center : Pt α
  radius : α
  start_angle : α
  end_angle : α
  layer : String
  color : ℤ
  linetype : String
  category : LineCategory
deriving DecidableEq

/-- A polyline vertex `(x, y, bulge)`, from
`src/domain/entities/polyline.py` (`PolylineVertex`). -/
structure PolyVertex (α : Type) where
  x : α
  y : α
  bulge : α
deriving DecidableEq

/-- A polyline entity, from `src/domain/entities/polyline.py`.  The Python
vertex tuple is modelled as a list. -/
structure Polyline (α : Type) where
  vertices : List (PolyVertex α)
  closed : Bool
  layer : String
  color : ℤ
  linetype : String
  category : LineCategory
deriving DecidableEq

/-- A text entity, from `src/domain/services/text_generator.py`
(`TextEntity`).  Text entities have no `category` attribute. -/
structure TextEnt where
  content : String
  position : Pt ℚ
  height : ℚ
  rotation : ℚ
  layer : String
  color : ℤ
deriving DecidableEq

/-- An axis-aligned bounding box, from
`src/domain/entities/bounding_box.py`. -/
structure BoundingBox where
  min_x : ℚ
  min_y : ℚ
  max_x : ℚ
  max_y : ℚ
deriving DecidableEq

/-- Point of `Line.point_at_ratio`: linear interpolation between the two
endpoints of a line at parameter `r`. -/
def Line.point_at_r {α : Type} [CommRing α] (l : Line α) (r : α) : Pt α :=
  ⟨l.start.x + (l.endp.x - l.start.x) * r, l.start.y + (l.endp.y - l.start.y) * r⟩

/-- Euclidean length of a rational-coordinate line (`Line.length`,
which calls `Point.distance_to`, a square root). -/
noncomputable def Line.length (l : Line ℚ) : ℝ :=
  Real.sqrt (((l.endp.x - l.start.x) ^ 2 + (l.endp.y - l.start.y) ^ 2 : ℚ) : ℝ)

/-- Mirror of a line (`Line.mirror_x`): both endpoints are reflected and all
attributes are passed through. -/
def Line.mirror_x {α : Type} [CommRing α] (l : Line α) (center_x : α) : Line α :=
  ⟨l.start.mirror_x center_x, l.endp.mirror_x center_x, l.layer, l.color, l.linetype, l.category⟩

/-- Mirror of an arc (`Arc.mirror_x`): the center is reflected and the
angles become `new_start = 180 - old_end`, `new_end = 180 - old_start`. -/
def Arc.mirror_x {α : Type} [CommRing α] (a : Arc α) (center_x : α) : Arc α :=
  ⟨a.center.mirror_x center_x, a.radius, 180 - a.end_angle, 180 - a.start_angle,
    a.layer, a.color, a.linetype, a.category⟩

/-- Mirror of a polyline (`Polyline.mirror_x`): each vertex `x` is reflected
and each bulge is negated. -/
def Polyline.mirror_x {α : Type} [CommRing α] (p : Polyline α) (center_x : α) : Polyline α :=
  ⟨p.vertices.map (fun v => ⟨2 * center_x - v.x, v.y, -v.bulge⟩), p.closed,
    p.layer, p.color, p.linetype, p.category⟩

/-- Sorting plus deduplication, the model of Python `sorted(set(xs))`:
the distinct elements of `xs` in increasing order. -/
def sortedDedup (xs : List ℚ) : List ℚ :=
  (xs.insertionSort (· ≤ ·)).dedup

/-- Consecutive pairs of a list, the model of indexing
`(xs[i], xs[i+1])` for `i in range(len(xs) - 1)`. -/
def pairsOf : List ℚ → List (ℚ × ℚ)
  | a :: b :: t => (a, b) :: pairsOf (b :: t)
  | _ => []

/-- The sub-line of `l` between parameters `a` and `b`, with all four
attributes inherited; the `Line(...)` constructions inside
`Line.split_at_ratios` and `BridgeCalculator.apply_bridges`. -/
def subLine (l : Line ℚ) (a b : ℚ) : Line ℚ :=
  ⟨l.point_at_r a, l.point_at_r b, l.layer, l.color, l.linetype, l.category⟩

/-- Splitting of a line at a list of parameter values
(`Line.split_at_ratios`): the parameters together with 0 and 1 are sorted and
deduplicated, and one sub-line is emitted per consecutive pair.  The source
performs no clamping of out-of-range parameters. -/
def Line.split_at_ratios (l : Line ℚ) (ratios : List ℚ) : List (Line ℚ) :=
  (pairsOf (sortedDedup (0 :: ratios ++ [1]))).map (fun p => subLine l p.1 p.2)

/-- Bridge settings, from `src/domain/value_objects/bridge_settings.py`. -/
structure BridgeSettings where
  min_length : ℚ
  single_bridge_max : ℚ
  target_interval : ℚ
  gap_size : ℚ
  edge_margin : ℚ
deriving DecidableEq

/-- Validity of bridge settings, the checks of
`BridgeSettings.__post_init__`. -/
def BridgeSettings.Valid (s : BridgeSettings) : Prop :=
  0 < s.min_length ∧ s.min_length ≤ s.single_bridge_max ∧
    0 < s.target_interval ∧ 0 < s.gap_size ∧ 0 ≤ s.edge_margin

instance (s : BridgeSettings) : Decidable s.Valid := by
  unfold BridgeSettings.Valid
  infer_instance

/-- Settings of `BridgeSettings.for_cut`. -/
def BridgeSettings.for_cut : BridgeSettings :=
  ⟨20, 50, 60, 3, 10⟩

/-- Settings of `BridgeSettings.for_crease`. -/
def BridgeSettings.for_crease : BridgeSettings :=
  ⟨20, 50, 50, 2, 10⟩

/-- Python `round`: round half to even (banker's rounding). -/
def pyRound (q : ℚ) : ℤ :=
  if q - ⌊q⌋ < 1 / 2 then ⌊q⌋
  else if 1 / 2 < q - ⌊q⌋ then ⌊q⌋ + 1
  else if 2 ∣ ⌊q⌋ then ⌊q⌋ else ⌊q⌋ + 1

/-- Bridge centre positions along a line, as ratios
(`BridgeCalculator.calculate_bridge_positions`).  `line_length` is in
millimetres. -/
def calculate_bridge_positions (s : BridgeSettings) (line_length : ℚ) : List ℚ :=
  if line_length < s.min_length then []
  else if line_length < s.single_bridge_max then [1 / 2]
  else
    let effective_length := line_length - 2 * s.edge_margin
    if effective_length ≤ 0 then [1 / 2]
    else
      let bc0 : ℤ := max 1 (pyRound (effective_length / s.target_interval))
      let ai0 : ℚ := effective_length / (bc0 : ℚ)
      let bridge_count : ℤ :=
        if 70 < ai0 ∧ (bc0 : ℚ) < effective_length / 50 then bc0 + 1
        else if ai0 < 50 ∧ 1 < bc0 then bc0 - 1
        else bc0
      let actual_interval : ℚ := effective_length / (bridge_count : ℚ)
      (List.range bridge_count.toNat).map (fun i : ℕ =>
        (s.edge_margin + (actual_interval / 2 + actual_interval * (i : ℚ))) / line_length)

/-- Bridge gap ranges as ratio pairs
(`BridgeCalculator.calculate_bridge_gaps`): each centre position is widened
by half the gap ratio on both sides, clamped to `[0.001, 0.999]`, and kept
only when non-degenerate. -/
def calculate_bridge_gaps (s : BridgeSettings) (line_length : ℚ) : List (ℚ × ℚ) :=
  let positions := calculate_bridge_positions s line_length
  let gap_r := s.gap_size / line_length
  positions.filterMap (fun pos =>
    let a := max (1 / 1000) (pos - gap_r / 2)
    let b := min (999 / 1000) (pos + gap_r / 2)
    if a < b then some (a, b) else none)

/-- Whether a sub-range coincides (within `1e-4` on both boundaries) with one
of the computed gaps; the `is_gap` test inside
`BridgeCalculator.apply_bridges`. -/
def isGapRange (gaps : List (ℚ × ℚ)) (a b : ℚ) : Bool :=
  gaps.any (fun g => decide (|a - g.1| < 1 / 10000) && decide (|b - g.2| < 1 / 10000))

/-- The split parameter list built inside `BridgeCalculator.apply_bridges`:
gap boundaries plus 0 and 1, sorted and deduplicated. -/
def bridgeRatios (gaps : List (ℚ × ℚ)) : List ℚ :=
  sortedDedup (0 :: gaps.flatMap (fun g => [g.1, g.2]) ++ [1])

/-- The segment loop of `BridgeCalculator.apply_bridges`: one sub-line per
consecutive parameter pair, skipping ranges that coincide with a gap. -/
def bridgeSegments (l : Line ℚ) (gaps : List (ℚ × ℚ)) : List (Line ℚ) :=
  (pairsOf (bridgeRatios gaps)).filterMap (fun p =>
    if isGapRange gaps p.1 p.2 then none else some (subLine l p.1 p.2))

/-- Application of bridges to a line (`BridgeCalculator.apply_bridges`).
The Python code derives the gap list from `line.length`; since that length
is a square root, it is supplied here as the explicit argument
`line_length`, which the theorems tie to `Line.length` of the line. -/
def apply_bridges (s : BridgeSettings) (l : Line ℚ) (line_length : ℚ) : List (Line ℚ) :=
  let gaps := calculate_bridge_gaps s line_length
  if gaps = [] then [l]
  else if bridgeSegments l gaps = [] then [l]
  else bridgeSegments l gaps

/-- Squared Euclidean distance between two rational points.  The Python
sources compare true Euclidean distances (`SegmentConnector._calculate_distance`);
squared distances compare identically. -/
def distSq (p q : Pt ℚ) : ℚ :=
  (q.x - p.x) ^ 2 + (q.y - p.y) ^ 2

/-- The six ordered pairs scanned by the nested loops of
`SegmentConnector._merge_lines` over the four endpoints. -/
def endpointPairs (la lb : Line ℚ) : List (Pt ℚ × Pt ℚ) :=
  [(la.start, la.endp), (la.start, lb.start), (la.start, lb.endp),
   (la.endp, lb.start), (la.endp, lb.endp), (lb.start, lb.endp)]

/-- Merge of two collinear lines (`SegmentConnector._merge_lines`): the two
farthest-apart endpoints become the new line; the scan keeps the first
maximal pair (strict improvement only), starting from
`(line_a.start, line_a.end)` with distance 0.  The source passes `color`,
`layer` and `category` to the merged line but not `linetype`, which
therefore takes the dataclass default `"CONTINUOUS"`. -/
def merge_lines (la lb : Line ℚ) : Line ℚ :=
  let best := (endpointPairs la lb).foldl
    (fun acc pr => if acc.2.2 < distSq pr.1 pr.2 then (pr.1, pr.2, distSq pr.1 pr.2) else acc)
    (la.start, la.endp, 0)
  ⟨best.1, best.2.1, la.layer, la.color, "CONTINUOUS", la.category⟩

/-- Endpoint extension (`SegmentConnector._extend_line_endpoint`): the
endpoint within distance `0.001` of `old_point` (checked on the start point,
else the end point) is moved to `new_point`.  As in `merge_lines`, the
source omits `linetype`, so the result carries the default
`"CONTINUOUS"`. -/
def extend_line_endpoint (l : Line ℚ) (old_point new_point : Pt ℚ) : Line ℚ :=
  if distSq l.start old_point < 1 / 1000000 then
    ⟨new_point, l.endp, l.layer, l.color, "CONTINUOUS", l.category⟩
  else
    ⟨l.start, new_point, l.layer, l.color, "CONTINUOUS", l.category⟩

/-- Whether the character list `needle` is an initial segment of `hay`. -/
def listStarts : List Char → List Char → Bool
  | [], _ => true
  | _ :: _, [] => false
  | a :: as, b :: bs => a == b && listStarts as bs

/-- Whether `needle` occurs as a contiguous sublist of `hay`; the model of
the Python substring test `needle in hay`. -/
def listHasSub (needle : List Char) : List Char → Bool
  | [] => needle.isEmpty
  | c :: rest => listStarts needle (c :: rest) || listHasSub needle rest

/-- Uppercasing of a string as a character list, the model of Python
`str.upper()` (character-wise; `Char.toUpper` maps `a`-`z` and leaves other
characters, in particular the Korean pattern characters, unchanged, exactly
as Python does on the strings involved here). -/
def strUpper (s : String) : List Char :=
  s.toList.map Char.toUpper

/-- Case-insensitive substring containment, the model of the Python test
`pattern.upper() in layer_upper`. -/
def upperHasSub (needle hay : String) : Bool :=
  listHasSub (strUpper needle) (strUpper hay)

/-- The default layer pattern table of `EntityClassifier.__post_init__`
(`LAYER_PATTERNS`), in Python dict insertion order. -/
def LAYER_PATTERNS : List (LineCategory × List String) :=
  [(LineCategory.CUT, ["CUT", "칼", "KNIFE", "DIE"]),
   (LineCategory.CREASE, ["CREASE", "괘", "FOLD", "SCORE"]),
   (LineCategory.AUXILIARY, ["AUX", "HELPER", "보조"]),
   (LineCategory.PLYWOOD, ["PLYWOOD", "합판", "FRAME", "WOOD"])]

/-- Scan of the pattern table: the first category one of whose uppercased
patterns occurs in the uppercased layer name wins. -/
def scanPatterns (layer_name : String) : List (LineCategory × List String) → LineCategory
  | [] => LineCategory.UNKNOWN
  | (cat, pats) :: rest =>
    if pats.any (fun p => upperHasSub p layer_name) then cat
    else scanPatterns layer_name rest

/-- Classification by layer name (`EntityClassifier._classify_by_layer`). -/
def classify_by_layer (layer_name : String) : LineCategory :=
  scanPatterns layer_name LAYER_PATTERNS

/-- Classification by ACI color (`EntityClassifier._classify_by_color` with
the default `COLOR_MAP`): red 1 is CUT, blue 5 is CREASE, green 3 is
AUXILIARY, white 7 is PLYWOOD. -/
def classify_by_color (color : ℤ) : LineCategory :=
  if color = 1 then LineCategory.CUT
  else if color = 5 then LineCategory.CREASE
  else if color = 3 then LineCategory.AUXILIARY
  else if color = 7 then LineCategory.PLYWOOD
  else LineCategory.UNKNOWN

/-- Classification of an entity with the given layer name and color
(`EntityClassifier.classify`): a non-empty, non-default layer name is tried
against the pattern table first; on no match the color table decides;
otherwise UNKNOWN (which `classify_by_color` already returns on no
match). -/
def classify (layer : String) (color : ℤ) : LineCategory :=
  if layer ≠ "" ∧ layer ≠ "0" then
    if classify_by_layer layer ≠ LineCategory.UNKNOWN then classify_by_layer layer
    else classify_by_color color
  else classify_by_color color

/-- Paper size value object, from
`src/domain/value_objects/paper_size.py`. -/
structure PaperSize where
  name : String
  width : ℚ
  height : ℚ
deriving DecidableEq

/-- The standard size catalogue (`PaperSize.STANDARD_SIZES`). -/
def STANDARD_SIZES : List (String × ℚ × ℚ) :=
  [("국전", 636, 939), ("국반절", 636, 469), ("국4절", 318, 469),
   ("4x6전지", 788, 1091), ("4x6반절", 545, 788), ("4x6 4절", 394, 545),
   ("46판", 394, 545), ("A1", 594, 841), ("A2", 420, 594),
   ("A3", 297, 420), ("A4", 210, 297)]

/-- Construction of a `PaperSize` with the validation of
`PaperSize.__post_init__`: each constraint is checked in source order and
the first violation raises a `ValueError`, modelled as `Except.error`. -/
def mkPaperSize (name : String) (width height : ℚ) : Except String PaperSize :=
  if width < 100 then .error "Width must be at least 100mm"
  else if height < 100 then .error "Height must be at least 100mm"
  else if 2000 < width then .error "Width must not exceed 2000mm"
  else if 3000 < height then .error "Height must not exceed 3000mm"
  else .ok ⟨name, width, height⟩

/-- Entity sum type as seen by the element remover.  `getattr(entity,
'category', None)` yields no category for text entities, hence the option
type in `ElementRemover`-related functions below. -/
inductive RemEntity where
  | line (l : Line ℚ)
  | arc (a : Arc ℚ)
  | text (t : TextEnt)
  | poly (p : Polyline ℚ)
deriving DecidableEq

/-- Layer attribute of an entity (every variant has one). -/
def RemEntity.layer : RemEntity → String
  | .line l => l.layer
  | .arc a => a.layer
  | .text t => t.layer
  | .poly p => p.layer

/-- Category attribute of an entity; text entities have none. -/
def RemEntity.category : RemEntity → Option LineCategory
  | .line l => some l.category
  | .arc a => some a.category
  | .text _ => none
  | .poly p => some p.category

/-- Bounding box used by the removal check
(`ElementRemover._get_entity_bbox`): exact for lines, a conservative
circle box for arcs, an approximation from content length and height for
text, and `None` for every other entity (in particular polylines). -/
def get_entity_bbox : RemEntity → Option BoundingBox
  | .line l => some ⟨min l.start.x l.endp.x, min l.start.y l.endp.y,
      max l.start.x l.endp.x, max l.start.y l.endp.y⟩
  | .arc a => some ⟨a.center.x - a.radius, a.center.y - a.radius,
      a.center.x + a.radius, a.center.y + a.radius⟩
  | .text t => some ⟨t.position.x, t.position.y,
      t.position.x + (t.content.length : ℚ) * t.height * (3 / 5),
      t.position.y + t.height⟩
  | .poly _ => none

/-- Whether an entity is wholly outside the plywood bounding box
(`ElementRemover._is_completely_outside`); an entity without a bounding box
is never outside. -/
def is_completely_outside (e : RemEntity) (plywood : BoundingBox) : Bool :=
  match get_entity_bbox e with
  | none => false
  | some b =>
    decide (b.max_x < plywood.min_x) || decide (b.min_x > plywood.max_x) ||
    decide (b.max_y < plywood.min_y) || decide (b.min_y > plywood.max_y)

/-- Element remover configuration: the layers excluded from removal and the
categories always kept (`ElementRemover` dataclass fields). -/
structure ElementRemover where
  exclude_layers : List String
  keep_categories : List LineCategory
deriving DecidableEq

/-- The default `ElementRemover` configuration. -/
def ElementRemover.default : ElementRemover :=
  ⟨["PLYWOOD", "TEXT"], [LineCategory.PLYWOOD]⟩

/-- Whether the entity's layer matches the exclude list, case-insensitively;
the check `layer and layer.upper() in [l.upper() for l in exclude_layers]`.
A falsy (empty) layer name never matches. -/
def layerExcluded (r : ElementRemover) (e : RemEntity) : Bool :=
  !(e.layer == "") && (r.exclude_layers.map strUpper).contains (strUpper e.layer)

/-- Decision of `ElementRemover.remove_external_elements` for one entity:
entities inside (or without bbox) are kept; outside, category PLYWOOD (a
fixed category, not the configured `keep_categories`) and excluded layers
are kept; what remains is decided per mode. -/
def shouldRemove (r : ElementRemover) (plywood : BoundingBox) (mode : RemovalMode)
    (e : RemEntity) : Bool :=
  if is_completely_outside e plywood then
    if e.category == some LineCategory.PLYWOOD then false
    else if layerExcluded r e then false
    else match mode with
      | .REMOVE_ALL => true
      | .KEEP_AUXILIARY => !(e.category == some LineCategory.AUXILIARY)
      | .KEEP_TEXT => !(match e with | .text _ => true | _ => false)
      | .CONFIRM_EACH => false
  else false

/-- Result of element removal: the kept and removed entities in input
order (`RemovalResult`). -/
structure RemovalResult where
  kept : List RemEntity
  removed : List RemEntity
deriving DecidableEq

/-- Removal of elements outside the plywood area
(`ElementRemover.remove_external_elements`). -/
def remove_external_elements (r : ElementRemover) (entities : List RemEntity)
    (plywood : BoundingBox) (mode : RemovalMode) : RemovalResult :=
  ⟨entities.filter (fun e => !shouldRemove r plywood mode e),
   entities.filter (fun e => shouldRemove r plywood mode e)⟩

/-- Python `math.atan2 y x` on real numbers (signed zeros are not
modelled). -/
noncomputable def atan2 (y x : ℝ) : ℝ :=
  if 0 < x then Real.arctan (y / x)
  else if x < 0 then
    (if 0 ≤ y then Real.arctan (y / x) + Real.pi else Real.arctan (y / x) - Real.pi)
  else
    (if 0 < y then Real.pi / 2 else if y < 0 then -(Real.pi / 2) else 0)

/-- Python `math.degrees`. -/
noncomputable def degrees (x : ℝ) : ℝ :=
  x * 180 / Real.pi

/-- Conversion of a bulged vertex pair to an arc
(`Polyline._create_arc_from_bulge`), over the reals.  Mirrors the source
computation step by step; returns `none` exactly when the source returns
`None` (tiny bulge or tiny chord). -/
noncomputable def create_arc_from_bulge (pl : Polyline ℝ) (v1 v2 : PolyVertex ℝ) :
    Option (Arc ℝ) :=
  let bulge := v1.bulge
  if |bulge| < 1 / 1000000000 then none
  else
    let dx := v2.x - v1.x
    let dy := v2.y - v1.y
    let chord_length := Real.sqrt (dx * dx + dy * dy)
    if chord_length < 1 / 1000000000 then none
    else
      let included_angle := 4 * Real.arctan |bulge|
      let half_angle := included_angle / 2
      let radius := chord_length / (2 * Real.sin half_angle)
      let sagitta := radius * (1 - Real.cos half_angle)
      let mid_x := (v1.x + v2.x) / 2
      let mid_y := (v1.y + v2.y) / 2
      let chord_ux := dx / chord_length
      let chord_uy := dy / chord_length
      let perp_ux := chord_uy
      let perp_uy := -chord_ux
      let dist_to_center := if bulge < 0 then -(radius - sagitta) else radius - sagitta
      let center_x := mid_x + perp_ux * dist_to_center
      let center_y := mid_y + perp_uy * dist_to_center
      let sa0 := degrees (atan2 (v1.y - center_y) (v1.x - center_x))
      let ea0 := degrees (atan2 (v2.y - center_y) (v2.x - center_x))
      let sa1 := if sa0 < 0 then sa0 + 360 else sa0
      let ea1 := if ea0 < 0 then ea0 + 360 else ea0
      let angles := if 0 < bulge then (ea1, sa1) else (sa1, ea1)
      some ⟨⟨center_x, center_y⟩, |radius|, angles.1, angles.2,
        pl.layer, pl.color, pl.linetype, pl.category⟩

/-- A decomposed polyline segment: a line or an arc. -/
inductive Seg (α : Type) where
  | line (l : Line α)
  | arc (a : Arc α)
deriving DecidableEq

/-- Layer of a decomposed segment. -/
def Seg.layer {α : Type} : Seg α → String
  | .line l => l.layer
  | .arc a => a.layer

/-- Color of a decomposed segment. -/
def Seg.color {α : Type} : Seg α → ℤ
  | .line l => l.color
  | .arc a => a.color

/-- Linetype of a decomposed segment. -/
def Seg.linetype {α : Type} : Seg α → String
  | .line l => l.linetype
  | .arc a => a.linetype

/-- Category of a decomposed segment. -/
def Seg.category {α : Type} : Seg α → LineCategory
  | .line l => l.category
  | .arc a => a.category

/-- Consecutive vertex pairs of a vertex list. -/
def consecPairs {α : Type} : List (PolyVertex α) → List (PolyVertex α × PolyVertex α)
  | a :: b :: t => (a, b) :: consecPairs (b :: t)
  | _ => []

/-- Vertex pairs of `Polyline._get_vertex_pairs`: consecutive pairs plus,
for a closed polyline with more than one vertex, the wrap-around pair. -/
def vertexPairs {α : Type} (pl : Polyline α) : List (PolyVertex α × PolyVertex α) :=
  consecPairs pl.vertices ++
    (match pl.vertices, pl.closed with
     | v0 :: v1 :: rest, true => [((v0 :: v1 :: rest).getLast (by simp), v0)]
     | _, _ => [])

/-- Processing of one vertex pair inside `Polyline.decompose`: a bulged
vertex (`PolylineVertex.has_bulge`, strict `|bulge| > 1e-9`) yields the arc
of `create_arc_from_bulge` when that succeeds and nothing when it fails; an
unbulged vertex yields the straight segment. -/
noncomputable def processPair (pl : Polyline ℝ) (v1 v2 : PolyVertex ℝ) : List (Seg ℝ) :=
  if 1 / 1000000000 < |v1.bulge| then
    match create_arc_from_bulge pl v1 v2 with
    | some a => [Seg.arc a]
    | none => []
  else
    [Seg.line ⟨⟨v1.x, v1.y⟩, ⟨v2.x, v2.y⟩, pl.layer, pl.color, pl.linetype, pl.category⟩]

/-- Decomposition of a polyline into lines and arcs
(`Polyline.decompose`). -/
noncomputable def decompose (pl : Polyline ℝ) : List (Seg ℝ) :=
  if pl.vertices.length < 2 then []
  else (vertexPairs pl).flatMap (fun p => processPair pl p.1 p.2)

/-- The sub-range list that bridge splitting keeps when the gaps are
pairwise separated and unclamped: the complementary ranges of the gaps
between parameter `a` and 1.  This is the claim-side description against
which `apply_bridges` is verified. -/
def expectedKept : ℚ → List (ℚ × ℚ) → List (ℚ × ℚ)
  | a, [] => [(a, 1)]
  | a, g :: t => (a, g.1) :: expectedKept g.2 t

/-- The two-vertex polyline of the claim's concrete scenario: `(0, 0)` with
bulge `tan 22.5°` to `(10, 0)`, open. -/
noncomputable def quarterPolyline : Polyline ℝ :=
  ⟨[⟨0, 0, Real.tan (Real.pi / 8)⟩, ⟨10, 0, 0⟩], false, "0", 7, "CONTINUOUS",
    LineCategory.UNKNOWN⟩

instance : Inhabited (Pt ℚ) := ⟨⟨0, 0⟩⟩

instance : Inhabited (Line ℚ) := ⟨⟨⟨0, 0⟩, ⟨0, 0⟩, "0", 7, "CONTINUOUS", .UNKNOWN⟩⟩

/-- C9: constructing a `PaperSize` succeeds if and only if
`100 ≤ width ≤ 2000` and `100 ≤ height ≤ 3000`; any out-of-range dimension
yields a validation error at construction time; and every entry of the
standard size catalogue satisfies these constraints. -/
theorem C9_paper_size_validation :
    (∀ (name : String) (w h : ℚ),
      (∃ p, mkPaperSize name w h = Except.ok p) ↔
        (100 ≤ w ∧ w ≤ 2000 ∧ 100 ≤ h ∧ h ≤ 3000)) ∧
    STANDARD_SIZES.Forall (fun e =>
      100 ≤ e.2.1 ∧ e.2.1 ≤ 2000 ∧ 100 ≤ e.2.2 ∧ e.2.2 ≤ 3000) := by
  constructor
  · intro name w h
    constructor
    · rintro ⟨p, hp⟩
      unfold mkPaperSize at hp
      split_ifs at hp
      exact ⟨by linarith, by linarith, by linarith, by linarith⟩
    · rintro ⟨h1, h2, h3, h4⟩
      refine ⟨⟨name, w, h⟩, ?_⟩
      unfold mkPaperSize
      rw [if_neg (by linarith), if_neg (by linarith), if_neg (by linarith),
        if_neg (by linarith)]
  · simp only [STANDARD_SIZES, List.Forall]
    norm_num

/-- C7: mirroring any line, arc or polyline twice about the same vertical
axis is the exact identity on the entity (hence in particular the identity
up to tolerance `1e-9`); arc angles return via the double application of
`new_start = 180 - old_end`, `new_end = 180 - old_start`, and polyline
bulges via double negation. -/
theorem C7_mirror_involution :
    (∀ (l : Line ℚ) (axis : ℚ), (l.mirror_x axis).mirror_x axis = l) ∧
    (∀ (a : Arc ℚ) (axis : ℚ), (a.mirror_x axis).mirror_x axis = a) ∧
    (∀ (p : Polyline ℚ) (axis : ℚ), (p.mirror_x axis).mirror_x axis = p) := by
  have hmir : ∀ axis x : ℚ, 2 * axis - (2 * axis - x) = x := fun axis x => by ring
  have h180 : ∀ x : ℚ, (180 : ℚ) - (180 - x) = x := fun x => by ring
  refine ⟨fun l axis => ?_, fun a axis => ?_, fun p axis => ?_⟩
  · obtain ⟨⟨sx, sy⟩, ⟨ex, ey⟩, la, co, lt, cat⟩ := l
    simp [Line.mirror_x, Pt.mirror_x, hmir]
  · obtain ⟨⟨cx, cy⟩, r, sa, ea, la, co, lt, cat⟩ := a
    simp [Arc.mirror_x, Pt.mirror_x, hmir, h180]
  · obtain ⟨vs, cl, la, co, lt, cat⟩ := p
    simp only [Polyline.mirror_x, Polyline.mk.injEq, List.map_map, and_true, true_and,
      eq_self_iff_true]
    induction vs with
    | nil => rfl
    | cons v t ih =>
      obtain ⟨x, y, b⟩ := v
      simpa [Function.comp, hmir] using ih

/-- Helper: attributes of a `subLine` equal those of the parent line. -/
theorem subLine_attrs (l : Line ℚ) (a b : ℚ) :
    (subLine l a b).layer = l.layer ∧ (subLine l a b).color = l.color ∧
      (subLine l a b).linetype = l.linetype ∧ (subLine l a b).category = l.category :=
  ⟨rfl, rfl, rfl, rfl⟩

/-- Helper: any member of `split_at_ratios` inherits the four attributes. -/
theorem split_at_ratios_mem_attrs (l : Line ℚ) (rs : List ℚ) :
    ∀ s_ ∈ l.split_at_ratios rs,
      s_.layer = l.layer ∧ s_.color = l.color ∧
        s_.linetype = l.linetype ∧ s_.category = l.category := by
  intro s_ hs
  unfold Line.split_at_ratios at hs
  obtain ⟨p, _, rfl⟩ := List.mem_map.mp hs
  exact subLine_attrs l p.1 p.2

/-- Helper: any member of `apply_bridges` inherits the four attributes. -/
theorem apply_bridges_mem_attrs (s : BridgeSettings) (l : Line ℚ) (L : ℚ) :
    ∀ s_ ∈ apply_bridges s l L,
      s_.layer = l.layer ∧ s_.color = l.color ∧
        s_.linetype = l.linetype ∧ s_.category = l.category := by
  intro s_ hs
  simp only [apply_bridges] at hs
  split_ifs at hs with h1 h2
  · rw [List.mem_singleton.mp hs]
    exact ⟨rfl, rfl, rfl, rfl⟩
  · rw [List.mem_singleton.mp hs]
    exact ⟨rfl, rfl, rfl, rfl⟩
  · unfold bridgeSegments at hs
    obtain ⟨p, _, hp⟩ := List.mem_filterMap.mp hs
    by_cases hg : isGapRange (calculate_bridge_gaps s L) p.1 p.2
    · rw [if_pos hg] at hp
      exact absurd hp (by simp)
    · rw [if_neg hg] at hp
      rw [← Option.some_inj.mp hp]
      exact subLine_attrs l p.1 p.2

/-- Helper: attributes of the arc produced by `create_arc_from_bulge` equal
the polyline's attributes. -/
theorem create_arc_attrs {pl : Polyline ℝ} {v1 v2 : PolyVertex ℝ} {a : Arc ℝ}
    (h : create_arc_from_bulge pl v1 v2 = some a) :
    a.layer = pl.layer ∧ a.color = pl.color ∧
      a.linetype = pl.linetype ∧ a.category = pl.category := by
  simp only [create_arc_from_bulge] at h
  by_cases h1 : |v1.bulge| < 1 / 1000000000
  · rw [if_pos h1] at h
    exact absurd h (by simp)
  · rw [if_neg h1] at h
    by_cases h2 : Real.sqrt ((v2.x - v1.x) * (v2.x - v1.x) +
        (v2.y - v1.y) * (v2.y - v1.y)) < 1 / 1000000000
    · rw [if_pos h2] at h
      exact absurd h (by simp)
    · rw [if_neg h2] at h
      rw [← Option.some_inj.mp h]
      exact ⟨rfl, rfl, rfl, rfl⟩

/-- Helper: any member of `decompose` inherits the polyline's attributes. -/
theorem decompose_mem_attrs (pl : Polyline ℝ) :
    ∀ sg ∈ decompose pl,
      sg.layer = pl.layer ∧ sg.color = pl.color ∧
        sg.linetype = pl.linetype ∧ sg.category = pl.category := by
  intro sg hsg
  unfold decompose at hsg
  split_ifs at hsg
  · exact absurd hsg (by simp)
  · obtain ⟨p, _, hmem⟩ := List.mem_flatMap.mp hsg
    unfold processPair at hmem
    split_ifs at hmem
    · rcases hc : create_arc_from_bulge pl p.1 p.2 with _ | a
      · rw [hc] at hmem
        exact absurd hmem (by simp)
      · rw [hc] at hmem
        rw [List.mem_singleton.mp hmem]
        obtain ⟨h1, h2, h3, h4⟩ := create_arc_attrs hc
        exact ⟨h1, h2, h3, h4⟩
    · rw [List.mem_singleton.mp hmem]
      exact ⟨rfl, rfl, rfl, rfl⟩

/-- C6 (amended): line splitting, bridge application and polyline
decomposition emit entities with the same layer, color, linetype and
category as the source entity; the segment connector's merge and extension
preserve layer, color and category but emit the default linetype
`"CONTINUOUS"` instead of the source line's linetype. -/
theorem C6_attribute_preservation :
    (∀ (l : Line ℚ) (rs : List ℚ), (l.split_at_ratios rs).Forall (fun s_ =>
      s_.layer = l.layer ∧ s_.color = l.color ∧
        s_.linetype = l.linetype ∧ s_.category = l.category)) ∧
    (∀ (s : BridgeSettings) (l : Line ℚ) (L : ℚ), (apply_bridges s l L).Forall (fun s_ =>
      s_.layer = l.layer ∧ s_.color = l.color ∧
        s_.linetype = l.linetype ∧ s_.category = l.category)) ∧
    (∀ pl : Polyline ℝ, (decompose pl).Forall (fun sg =>
      sg.layer = pl.layer ∧ sg.color = pl.color ∧
        sg.linetype = pl.linetype ∧ sg.category = pl.category)) ∧
    (∀ la lb : Line ℚ,
      (merge_lines la lb).layer = la.layer ∧ (merge_lines la lb).color = la.color ∧
        (merge_lines la lb).category = la.category ∧
        (merge_lines la lb).linetype = "CONTINUOUS") ∧
    (∀ (l : Line ℚ) (op np : Pt ℚ),
      (extend_line_endpoint l op np).layer = l.layer ∧
        (extend_line_endpoint l op np).color = l.color ∧
        (extend_line_endpoint l op np).category = l.category ∧
        (extend_line_endpoint l op np).linetype = "CONTINUOUS") := by
  refine ⟨?_, ?_, ?_, ?_, ?_⟩
  · intro l rs
    exact List.forall_iff_forall_mem.mpr (split_at_ratios_mem_attrs l rs)
  · intro s l L
    exact List.forall_iff_forall_mem.mpr (apply_bridges_mem_attrs s l L)
  · intro pl
    exact List.forall_iff_forall_mem.mpr (decompose_mem_attrs pl)
  · intro la lb
    exact ⟨rfl, rfl, rfl, rfl⟩
  · intro l op np
    unfold extend_line_endpoint
    split <;> exact ⟨rfl, rfl, rfl, rfl⟩

/-- C6 counterexample: merging two collinear `"DASHED"` lines yields a line
whose linetype is not the source linetype (the claim as stated asserts the
merge preserves linetype). -/
theorem C6_linetype_counterexample :
    (merge_lines
        ⟨⟨0, 0⟩, ⟨1, 0⟩, "CUT", 1, "DASHED", LineCategory.CUT⟩
        ⟨⟨1, 0⟩, ⟨2, 0⟩, "CUT", 1, "DASHED", LineCategory.CUT⟩).linetype ≠
      ("DASHED" : String) := by
  decide

/-- Helper: if some uppercased pattern of the default table occurs in the
uppercased layer name, the layer scan does not return UNKNOWN. -/
theorem classify_by_layer_ne_unknown {layer : String}
    (h : LAYER_PATTERNS.any
        (fun cp => cp.2.any (fun p => upperHasSub p layer)) = true) :
    classify_by_layer layer ≠ LineCategory.UNKNOWN := by
  unfold classify_by_layer
  unfold LAYER_PATTERNS at h ⊢
  simp only [List.any_cons, List.any_nil, Bool.or_false, Bool.or_eq_true] at h
  by_cases h1 : (["CUT", "칼", "KNIFE", "DIE"] : List String).any
      (fun p => upperHasSub p layer) = true
  · simp [scanPatterns, h1]
  · by_cases h2 : (["CREASE", "괘", "FOLD", "SCORE"] : List String).any
        (fun p => upperHasSub p layer) = true
    · simp [scanPatterns, h1, h2]
    · by_cases h3 : (["AUX", "HELPER", "보조"] : List String).any
          (fun p => upperHasSub p layer) = true
      · simp [scanPatterns, h1, h2, h3]
      · by_cases h4 : (["PLYWOOD", "합판", "FRAME", "WOOD"] : List String).any
            (fun p => upperHasSub p layer) = true
        · simp [scanPatterns, h1, h2, h3, h4]
        · simp only [List.any_cons, List.any_nil, Bool.or_false, Bool.or_eq_true]
            at h1 h2 h3 h4
          rcases h with h | h | h | h
          · exact absurd h h1
          · exact absurd h h2
          · exact absurd h h3
          · exact absurd h h4

/-- C4: an entity with a non-empty, non-default layer name containing one
of the configured patterns (case-insensitively) is classified by the layer
table irrespective of its color; when the layer gives no match the color
table (red CUT, blue CREASE, green AUXILIARY, white PLYWOOD) decides;
otherwise the result is UNKNOWN. -/
theorem C4_classification_priority (layer : String) (color : ℤ) :
    (layer ≠ "" → layer ≠ "0" →
      LAYER_PATTERNS.any
          (fun cp => cp.2.any (fun p => upperHasSub p layer)) = true →
      classify layer color = classify_by_layer layer ∧
        classify_by_layer layer ≠ LineCategory.UNKNOWN) ∧
    ((layer = "" ∨ layer = "0" ∨ classify_by_layer layer = LineCategory.UNKNOWN) →
      classify layer color = classify_by_color color) ∧
    classify_by_color 1 = LineCategory.CUT ∧
    classify_by_color 5 = LineCategory.CREASE ∧
    classify_by_color 3 = LineCategory.AUXILIARY ∧
    classify_by_color 7 = LineCategory.PLYWOOD ∧
    (color ≠ 1 → color ≠ 5 → color ≠ 3 → color ≠ 7 →
      classify_by_color color = LineCategory.UNKNOWN) := by
  refine ⟨?_, ?_, rfl, rfl, rfl, rfl, ?_⟩
  · intro hne h0 hmatch
    have hk := classify_by_layer_ne_unknown hmatch
    unfold classify
    rw [if_pos ⟨hne, h0⟩, if_pos hk]
    exact ⟨rfl, hk⟩
  · intro hc
    unfold classify
    rcases hc with rfl | rfl | hu
    · rw [if_neg (by simp)]
    · rw [if_neg (by simp)]
    · by_cases hl : layer ≠ "" ∧ layer ≠ "0"
      · rw [if_pos hl, if_neg (by simp [hu])]
      · rw [if_neg hl]
  · intro h1 h5 h3 h7
    unfold classify_by_color
    rw [if_neg h1, if_neg h5, if_neg h3, if_neg h7]

/-- Witness for C4 at concrete inputs: the layer `"CUT_LAYER"` matches the
pattern table and wins over the crease color 5; the default layer `"0"`
falls through to the color table; the unmapped color 9 is UNKNOWN. -/
theorem C4_classification_priority_witness :
    (("CUT_LAYER" : String) ≠ "" ∧ ("CUT_LAYER" : String) ≠ "0" ∧
      LAYER_PATTERNS.any
        (fun cp => cp.2.any
          (fun p => upperHasSub p "CUT_LAYER")) = true) ∧
    classify "CUT_LAYER" 5 = classify_by_layer "CUT_LAYER" ∧
    classify_by_layer "CUT_LAYER" ≠ LineCategory.UNKNOWN ∧
    classify "0" 5 = classify_by_color 5 ∧
    classify_by_color 9 = LineCategory.UNKNOWN := by
  refine ⟨⟨by decide, by decide, by decide⟩, ?_, ?_, ?_, ?_⟩
  · exact ((C4_classification_priority "CUT_LAYER" 5).1 (by decide) (by decide) (by decide)).1
  · exact ((C4_classification_priority "CUT_LAYER" 5).1 (by decide) (by decide) (by decide)).2
  · exact (C4_classification_priority "0" 5).2.1 (Or.inr (Or.inl rfl))
  · exact (C4_classification_priority "0" 9).2.2.2.2.2.2
      (by decide) (by decide) (by decide) (by decide)

/-- C1: `calculate_bridge_positions` follows the claimed case analysis (no
bridge below `min_length`, centre bridge below `single_bridge_max` or for
non-positive effective length, otherwise the evenly spaced list for the
adjusted count, where `round` is Python's round-half-to-even); the returned
list is strictly increasing; and the default cut profile at length 200
yields `[0.2, 0.5, 0.8]`. -/
theorem C1_bridge_positions (s : BridgeSettings) (L : ℚ) (hL : 0 ≤ L) (hs : s.Valid) :
    (calculate_bridge_positions s L =
      if L < s.min_length then []
      else if L < s.single_bridge_max then [1 / 2]
      else if L - 2 * s.edge_margin ≤ 0 then [1 / 2]
      else
        let eff := L - 2 * s.edge_margin
        let n0 : ℤ := max 1 (pyRound (eff / s.target_interval))
        let n : ℤ :=
          if 70 < eff / (n0 : ℚ) ∧ (n0 : ℚ) < eff / 50 then n0 + 1
          else if eff / (n0 : ℚ) < 50 ∧ 1 < n0 then n0 - 1 else n0
        let interval := eff / (n : ℚ)
        (List.range n.toNat).map (fun i : ℕ =>
          (s.edge_margin + interval / 2 + interval * (i : ℚ)) / L)) ∧
    (calculate_bridge_positions s L).Sorted (· < ·) ∧
    calculate_bridge_positions BridgeSettings.for_cut 200 = [1 / 5, 1 / 2, 4 / 5] := by
  obtain ⟨hmin, hsb, hti, hgap, hem⟩ := hs
  have hconcrete : calculate_bridge_positions BridgeSettings.for_cut 200 = [1 / 5, 1 / 2, 4 / 5] := by
    norm_num [calculate_bridge_positions, BridgeSettings.for_cut, pyRound]
    rw [show List.range (Int.toNat 3) = [0, 1, 2] from rfl]
    norm_num
  refine ⟨?_, ?_, hconcrete⟩
  · simp only [calculate_bridge_positions]
    split_ifs <;>
      first
        | rfl
        | exact List.map_congr_left (fun a _ => by ring)
  · simp only [calculate_bridge_positions]
    have key : ∀ m : ℤ, 1 ≤ m → 0 < L → 0 < L - 2 * s.edge_margin →
        List.Sorted (· < ·) ((List.range m.toNat).map (fun i : ℕ =>
          (s.edge_margin + ((L - 2 * s.edge_margin) / (m : ℚ) / 2 +
            (L - 2 * s.edge_margin) / (m : ℚ) * (i : ℚ))) / L)) := by
      intro m hm hL0 heff
      have hmpos : (0 : ℚ) < (m : ℚ) := by
        exact_mod_cast lt_of_lt_of_le Int.zero_lt_one hm
      have hint : 0 < (L - 2 * s.edge_margin) / (m : ℚ) := div_pos heff hmpos
      refine List.Pairwise.map _ (fun a b hab => ?_) (List.pairwise_lt_range m.toNat)
      have hc : (a : ℚ) < (b : ℚ) := by exact_mod_cast hab
      have hstep : (L - 2 * s.edge_margin) / (m : ℚ) * (a : ℚ) <
          (L - 2 * s.edge_margin) / (m : ℚ) * (b : ℚ) :=
        mul_lt_mul_of_pos_left hc hint
      exact div_lt_div_of_pos_right (by linarith) hL0
    have hmax : (1 : ℤ) ≤ 1 ⊔ pyRound ((L - 2 * s.edge_margin) / s.target_interval) :=
      le_max_left _ _
    split_ifs with h1 h2 h3 h4 h5
    · exact List.sorted_nil
    · exact List.sorted_singleton _
    · exact List.sorted_singleton _
    · exact key _ (by omega) (lt_of_lt_of_le hmin (not_lt.mp h1)) (lt_of_not_le h3)
    · exact key _ (by have := h5.2; omega) (lt_of_lt_of_le hmin (not_lt.mp h1))
        (lt_of_not_le h3)
    · exact key _ (by omega) (lt_of_lt_of_le hmin (not_lt.mp h1)) (lt_of_not_le h3)

/-- Witness for C1 at the concrete input of the claim: length 200 with the
default cut profile. -/
theorem C1_bridge_positions_witness :
    ((0 : ℚ) ≤ 200 ∧ BridgeSettings.for_cut.Valid) ∧
      calculate_bridge_positions BridgeSettings.for_cut 200 = [1 / 5, 1 / 2, 4 / 5] :=
  ⟨⟨by norm_num, by decide⟩,
    (C1_bridge_positions BridgeSettings.for_cut 200 (by norm_num) (by decide)).2.2⟩

/-- Helper: `sortedDedup` output is weakly sorted. -/
theorem sortedDedup_sorted_le (xs : List ℚ) : (sortedDedup xs).Sorted (· ≤ ·) :=
  List.Pairwise.sublist (List.dedup_sublist _) (List.sorted_insertionSort _ xs)

/-- Helper: `sortedDedup` output has no duplicates. -/
theorem sortedDedup_nodup (xs : List ℚ) : (sortedDedup xs).Nodup :=
  List.nodup_dedup _

/-- Helper: `sortedDedup` output is strictly sorted. -/
theorem sortedDedup_sorted_lt (xs : List ℚ) : (sortedDedup xs).Sorted (· < ·) :=
  (sortedDedup_sorted_le xs).lt_of_le (sortedDedup_nodup xs)

/-- Helper: membership in `sortedDedup` equals membership in the input. -/
theorem mem_sortedDedup {x : ℚ} {xs : List ℚ} : x ∈ sortedDedup xs ↔ x ∈ xs := by
  rw [sortedDedup, List.mem_dedup]
  exact (List.perm_insertionSort _ xs).mem_iff

/-- Helper: `sortedDedup` of a strictly sorted list is the list itself. -/
theorem sortedDedup_eq_self {xs : List ℚ} (h : xs.Sorted (· < ·)) : sortedDedup xs = xs := by
  rw [sortedDedup, List.Sorted.insertionSort_eq (h.imp (fun hab => le_of_lt hab))]
  exact List.dedup_eq_self.mpr h.nodup

/-- Helper: the head of a strictly sorted list containing a lower bound of
its members is that bound. -/
theorem headI_of_sorted_min {l : List ℚ} {x : ℚ} (hs : l.Sorted (· < ·)) (hx : x ∈ l)
    (hmin : ∀ y ∈ l, x ≤ y) : l.headI = x := by
  cases l with
  | nil => cases hx
  | cons a t =>
    rcases List.mem_cons.mp hx with rfl | hxt
    · rfl
    · have h1 : a < x := (List.sorted_cons.mp hs).1 x hxt
      have h2 : x ≤ a := hmin a (List.mem_cons_self a t)
      exact absurd h1 (not_lt.mpr h2)

/-- Helper: appending a final element determines `getLastI`. -/
theorem getLastI_concat {α : Type} [Inhabited α] (A : List α) (y : α) :
    (A ++ [y]).getLastI = y := by
  rw [List.getLastI_eq_getLast?, List.getLast?_concat]

/-- Helper: a non-empty list equals its `dropLast` plus its `getLastI`. -/
theorem eq_dropLast_concat_getLastI {α : Type} [Inhabited α] {l : List α} (h : l ≠ []) :
    l = l.dropLast ++ [l.getLastI] := by
  rw [List.getLastI_eq_getLast?, List.getLast?_eq_getLast l h]
  exact (List.dropLast_append_getLast h).symm

/-- Helper: the last entry of a strictly sorted list containing an upper
bound of its members is that bound. -/
theorem getLastI_of_sorted_max {l : List ℚ} {x : ℚ} (hs : l.Sorted (· < ·)) (hx : x ∈ l)
    (hmax : ∀ y ∈ l, y ≤ x) : l.getLastI = x := by
  have hne : l ≠ [] := List.ne_nil_of_mem hx
  obtain ⟨B, g, hBg⟩ : ∃ B g, l = B ++ [g] :=
    ⟨l.dropLast, l.getLastI, eq_dropLast_concat_getLastI hne⟩
  subst hBg
  rw [getLastI_concat]
  have h1 : g ≤ x := hmax g (by simp)
  rcases List.mem_append.mp hx with hB | hxg
  · have h2 : x < g := (List.pairwise_append.mp hs).2.2 x hB g (by simp)
    exact absurd h1 (not_le.mpr h2)
  · rw [List.mem_singleton.mp hxg]

/-- Helper: `pairsOf` of a list extended by one element. -/
theorem pairsOf_snoc : ∀ (rs : List ℚ), rs ≠ [] → ∀ b : ℚ,
    pairsOf (rs ++ [b]) = pairsOf rs ++ [(rs.getLastI, b)]
  | [], h, _ => absurd rfl h
  | [a], _, b => rfl
  | a :: c :: t, _, b => by
    have ih := pairsOf_snoc (c :: t) (by simp) b
    rw [List.cons_append] at ih
    have h1 : (a :: c :: t) ++ [b] = a :: c :: (t ++ [b]) := by simp
    rw [h1, show pairsOf (a :: c :: (t ++ [b])) = (a, c) :: pairsOf (c :: (t ++ [b])) from rfl,
      ih, show pairsOf (a :: c :: t) = (a, c) :: pairsOf (c :: t) from rfl]
    simp [List.getLastI_eq_getLast?]

/-- Helper: the first point parameter 0 evaluates to the start point. -/
theorem point_at_r_zero (l : Line ℚ) : l.point_at_r 0 = l.start := by
  obtain ⟨⟨sx, sy⟩, ⟨ex, ey⟩, la, co, lt, cat⟩ := l
  simp [Line.point_at_r]

/-- Helper: the point parameter 1 evaluates to the end point. -/
theorem point_at_r_one (l : Line ℚ) : l.point_at_r 1 = l.endp := by
  obtain ⟨⟨sx, sy⟩, ⟨ex, ey⟩, la, co, lt, cat⟩ := l
  simp only [Line.point_at_r, Pt.mk.injEq, mul_one]
  constructor <;> ring

/-- Helper: consecutive sub-lines built from consecutive parameter pairs
share their endpoints. -/
theorem chain'_pairsOf_map (l : Line ℚ) : ∀ rs : List ℚ,
    List.Chain' (fun s1 s2 => s1.endp = s2.start)
      ((pairsOf rs).map (fun p => subLine l p.1 p.2))
  | [] => by simp [pairsOf]
  | [a] => by simp [pairsOf]
  | a :: b :: t => by
    have ih := chain'_pairsOf_map l (b :: t)
    cases t with
    | nil => simp [pairsOf]
    | cons c t2 =>
      simp only [pairsOf, List.map_cons] at ih ⊢
      rw [List.chain'_cons]
      exact ⟨rfl, ih⟩

/-- C5 (amended): for every line and every ratio list whose entries lie in
`[0, 1]`, `split_at_ratios` returns a non-empty ordered list of sub-lines
exactly covering the line (the first starts at the start point, the last
ends at the end point, consecutive sub-lines share endpoints), built from
the sorted and deduplicated ratios; every sub-line inherits the parent's
layer, color, linetype and category.  The source performs no clamping of
out-of-range ratios (the claim's clamping clause fails, see the
counterexample), so the ratios are assumed in range here. -/
theorem C5_split_at_ratios (l : Line ℚ) (rs : List ℚ)
    (hrs : ∀ r ∈ rs, 0 ≤ r ∧ r ≤ 1) :
    l.split_at_ratios rs ≠ [] ∧
    (l.split_at_ratios rs).headI.start = l.start ∧
    (l.split_at_ratios rs).getLastI.endp = l.endp ∧
    (l.split_at_ratios rs).Chain' (fun s1 s2 => s1.endp = s2.start) ∧
    (∀ s_ ∈ l.split_at_ratios rs,
      s_.layer = l.layer ∧ s_.color = l.color ∧
        s_.linetype = l.linetype ∧ s_.category = l.category) ∧
    (sortedDedup (0 :: rs ++ [1])).Sorted (· < ·) ∧
    (∀ x : ℚ, x ∈ sortedDedup (0 :: rs ++ [1]) ↔ x ∈ 0 :: rs ++ [1]) := by
  have hsort : (sortedDedup (0 :: rs ++ [1])).Sorted (· < ·) := sortedDedup_sorted_lt _
  have hmem : ∀ x : ℚ, x ∈ sortedDedup (0 :: rs ++ [1]) ↔ x ∈ 0 :: rs ++ [1] :=
    fun x => mem_sortedDedup
  have h0 : (0 : ℚ) ∈ sortedDedup (0 :: rs ++ [1]) :=
    (hmem 0).mpr (List.mem_cons_self _ _)
  have h1 : (1 : ℚ) ∈ sortedDedup (0 :: rs ++ [1]) := (hmem 1).mpr (by simp)
  have hlow : ∀ y ∈ sortedDedup (0 :: rs ++ [1]), 0 ≤ y := by
    intro y hy
    rcases List.mem_cons.mp ((hmem y).mp hy) with rfl | hy2
    · exact le_refl 0
    · rcases List.mem_append.mp hy2 with hyr | hy1
      · exact (hrs y hyr).1
      · rw [List.mem_singleton.mp hy1]
        norm_num
  have hhigh : ∀ y ∈ sortedDedup (0 :: rs ++ [1]), y ≤ 1 := by
    intro y hy
    rcases List.mem_cons.mp ((hmem y).mp hy) with rfl | hy2
    · norm_num
    · rcases List.mem_append.mp hy2 with hyr | hy1
      · exact (hrs y hyr).2
      · rw [List.mem_singleton.mp hy1]
  have hhead : (sortedDedup (0 :: rs ++ [1])).headI = 0 :=
    headI_of_sorted_min hsort h0 hlow
  have hlastR : (sortedDedup (0 :: rs ++ [1])).getLastI = 1 :=
    getLastI_of_sorted_max hsort h1 hhigh
  obtain ⟨r0, t, ht⟩ := List.exists_cons_of_ne_nil (List.ne_nil_of_mem h0)
  have hr0 : r0 = 0 := by
    rw [ht] at hhead
    exact hhead
  rw [hr0] at ht
  cases t with
  | nil =>
    rw [ht] at hlastR
    simp [List.getLastI] at hlastR
  | cons r1 t2 =>
    have hsplit : l.split_at_ratios rs =
        (pairsOf (sortedDedup (0 :: rs ++ [1]))).map (fun p => subLine l p.1 p.2) := rfl
    have hdne : (sortedDedup (0 :: rs ++ [1])).dropLast ≠ [] := by
      rw [ht]
      simp
    have hRdec : sortedDedup (0 :: rs ++ [1]) =
        (sortedDedup (0 :: rs ++ [1])).dropLast ++ [(1 : ℚ)] := by
      conv_lhs => rw [eq_dropLast_concat_getLastI (List.ne_nil_of_mem h0)]
      rw [hlastR]
    have hlastSeg : (l.split_at_ratios rs).getLastI =
        subLine l (sortedDedup (0 :: rs ++ [1])).dropLast.getLastI 1 := by
      rw [hsplit]
      conv_lhs => rw [hRdec]
      rw [pairsOf_snoc _ hdne 1, List.map_append]
      exact getLastI_concat _ _
    refine ⟨?_, ?_, ?_, ?_, split_at_ratios_mem_attrs l rs, hsort, hmem⟩
    · rw [hsplit, ht]
      simp [pairsOf]
    · rw [hsplit, ht]
      show (subLine l 0 r1).start = l.start
      exact point_at_r_zero l
    · rw [hlastSeg]
      show l.point_at_r 1 = l.endp
      exact point_at_r_one l
    · rw [hsplit]
      exact chain'_pairsOf_map l _

/-- C5 counterexample: the claim as stated requires out-of-range ratios to
be clamped, which would make the first sub-line start at the line's start
point; the source does not clamp, and the ratio `-1/2` produces a first
sub-line starting at `(-5, 0)` instead of the start point `(0, 0)`. -/
theorem C5_clamp_counterexample :
    (Line.split_at_ratios
        ⟨⟨0, 0⟩, ⟨10, 0⟩, "0", 7, "CONTINUOUS", LineCategory.UNKNOWN⟩
        [-(1 / 2)]).headI.start = (⟨-5, 0⟩ : Pt ℚ) ∧
    (Line.split_at_ratios
        ⟨⟨0, 0⟩, ⟨10, 0⟩, "0", 7, "CONTINUOUS", LineCategory.UNKNOWN⟩
        [-(1 / 2)]).headI.start ≠
      (⟨⟨0, 0⟩, ⟨10, 0⟩, "0", 7, "CONTINUOUS", LineCategory.UNKNOWN⟩ : Line ℚ).start := by
  have h : sortedDedup (0 :: [-(1 / 2)] ++ [1]) = [-(1 / 2), 0, 1] := by
    norm_num [sortedDedup, List.insertionSort, List.orderedInsert,
      List.dedup_cons_of_not_mem, List.dedup_nil]
  constructor
  · rw [Line.split_at_ratios, h]
    show (subLine _ (-(1 / 2)) 0).start = (⟨-5, 0⟩ : Pt ℚ)
    simp only [subLine, Line.point_at_r, Pt.mk.injEq]
    norm_num
  · rw [Line.split_at_ratios, h]
    show (subLine _ (-(1 / 2)) 0).start ≠ _
    simp only [subLine, Line.point_at_r, Pt.mk.injEq, ne_eq]
    norm_num

/-- Witness for C5 at a concrete input: splitting the unit-attribute line
from `(0,0)` to `(10,0)` at ratios `0.3` and `0.7`. -/
theorem C5_split_at_ratios_witness :
    (∀ r ∈ ([3 / 10, 7 / 10] : List ℚ), 0 ≤ r ∧ r ≤ 1) ∧
    ((Line.split_at_ratios
        ⟨⟨0, 0⟩, ⟨10, 0⟩, "CUT", 1, "DASHED", LineCategory.CUT⟩
        [3 / 10, 7 / 10]) ≠ [] ∧
      (Line.split_at_ratios
          ⟨⟨0, 0⟩, ⟨10, 0⟩, "CUT", 1, "DASHED", LineCategory.CUT⟩
          [3 / 10, 7 / 10]).headI.start =
        (⟨⟨0, 0⟩, ⟨10, 0⟩, "CUT", 1, "DASHED", LineCategory.CUT⟩ : Line ℚ).start) := by
  have hr : ∀ r ∈ ([3 / 10, 7 / 10] : List ℚ), 0 ≤ r ∧ r ≤ 1 := by
    intro r hrr
    rcases List.mem_cons.mp hrr with rfl | hrr2
    · norm_num
    · rw [List.mem_singleton.mp hrr2]
      norm_num
  have happ := C5_split_at_ratios
    ⟨⟨0, 0⟩, ⟨10, 0⟩, "CUT", 1, "DASHED", LineCategory.CUT⟩ [3 / 10, 7 / 10] hr
  exact ⟨hr, happ.1, happ.2.1⟩

/-- Helper: evaluation of `Line.length` when the squared length is a
perfect rational square. -/
theorem length_eval (l : Line ℚ) (q : ℚ)
    (h : (l.endp.x - l.start.x) ^ 2 + (l.endp.y - l.start.y) ^ 2 = q * q)
    (hq : 0 ≤ q) : l.length = (q : ℝ) := by
  rw [Line.length, h, show ((q * q : ℚ) : ℝ) = ((q : ℝ)) ^ 2 by push_cast; ring]
  exact Real.sqrt_sq (by exact_mod_cast hq)

/-- Helper: every gap emitted by `calculate_bridge_gaps` lies in
`[0.001, 0.999]` and is non-degenerate. -/
theorem calculate_bridge_gaps_bounds (s : BridgeSettings) (L : ℚ) :
    ∀ g ∈ calculate_bridge_gaps s L,
      1 / 1000 ≤ g.1 ∧ g.1 < g.2 ∧ g.2 ≤ 999 / 1000 := by
  intro g hg
  simp only [calculate_bridge_gaps] at hg
  obtain ⟨p, _, hpg⟩ := List.mem_filterMap.mp hg
  by_cases hlt : max (1 / 1000) (p - s.gap_size / L / 2) <
      min (999 / 1000) (p + s.gap_size / L / 2)
  · rw [if_pos hlt] at hpg
    rw [← Option.some_inj.mp hpg]
    exact ⟨le_max_left _ _, hlt, min_le_left _ _⟩
  · rw [if_neg hlt] at hpg
    cases hpg

/-- Helper: a sub-range starting at 0 never coincides with a gap. -/
theorem isGapRange_zero_false (s : BridgeSettings) (L : ℚ) (b : ℚ) :
    isGapRange (calculate_bridge_gaps s L) 0 b = false := by
  simp only [isGapRange, List.any_eq_false, Bool.and_eq_true, decide_eq_true_eq, not_and]
  intro g hg habs
  have h1 := (calculate_bridge_gaps_bounds s L g hg).1
  rw [zero_sub, abs_neg, abs_of_nonneg (by linarith)] at habs
  linarith

/-- Helper: a sub-range ending at 1 never coincides with a gap. -/
theorem isGapRange_one_false (s : BridgeSettings) (L : ℚ) (a : ℚ) :
    isGapRange (calculate_bridge_gaps s L) a 1 = false := by
  simp only [isGapRange, List.any_eq_false, Bool.and_eq_true, decide_eq_true_eq, not_and]
  intro g hg _ habs
  obtain ⟨h1, h2, h3⟩ := calculate_bridge_gaps_bounds s L g hg
  rw [abs_of_nonneg (by linarith)] at habs
  linarith

/-- C10: for every line of positive length and valid bridge settings,
`apply_bridges` returns a non-empty segment list whose first segment starts
exactly at the line's start point and whose last segment ends exactly at
its end point, and every computed gap is clamped inside `[0.001, 0.999]`
(so line ends are never cut away).  `L` is the line's Euclidean length,
supplied explicitly and tied to the line by `hL`. -/
theorem C10_apply_bridges_endpoints (s : BridgeSettings) (l : Line ℚ) (L : ℚ)
    (hs : s.Valid) (hL : l.length = (L : ℝ)) (hLpos : 0 < L) :
    apply_bridges s l L ≠ [] ∧
    (apply_bridges s l L).headI.start = l.start ∧
    (apply_bridges s l L).getLastI.endp = l.endp ∧
    (∀ g ∈ calculate_bridge_gaps s L,
      1 / 1000 ≤ g.1 ∧ g.1 < g.2 ∧ g.2 ≤ 999 / 1000) := by
  have hgb := calculate_bridge_gaps_bounds s L
  by_cases hgaps : calculate_bridge_gaps s L = []
  · refine ⟨?_, ?_, ?_, hgb⟩ <;> simp [apply_bridges, hgaps, List.getLastI]
  · have hbmem : ∀ x ∈ (calculate_bridge_gaps s L).flatMap (fun g => [g.1, g.2]),
        1 / 1000 ≤ x ∧ x ≤ 999 / 1000 := by
      intro x hx
      obtain ⟨g, hg, hxg⟩ := List.mem_flatMap.mp hx
      obtain ⟨h1, h2, h3⟩ := hgb g hg
      rcases List.mem_cons.mp hxg with rfl | hxg2
      · exact ⟨h1, by linarith⟩
      · rw [List.mem_singleton.mp hxg2]
        exact ⟨by linarith, h3⟩
    set flatB := (calculate_bridge_gaps s L).flatMap (fun g => [g.1, g.2]) with hflatB
    have hsort : (bridgeRatios (calculate_bridge_gaps s L)).Sorted (· < ·) :=
      sortedDedup_sorted_lt _
    have hmem : ∀ x : ℚ, x ∈ bridgeRatios (calculate_bridge_gaps s L) ↔
        x ∈ 0 :: flatB ++ [1] := fun x => mem_sortedDedup
    have h0 : (0 : ℚ) ∈ bridgeRatios (calculate_bridge_gaps s L) :=
      (hmem 0).mpr (List.mem_cons_self _ _)
    have h1 : (1 : ℚ) ∈ bridgeRatios (calculate_bridge_gaps s L) := (hmem 1).mpr (by simp)
    have hlow : ∀ y ∈ bridgeRatios (calculate_bridge_gaps s L), 0 ≤ y := by
      intro y hy
      rcases List.mem_cons.mp ((hmem y).mp hy) with rfl | hy2
      · exact le_refl 0
      · rcases List.mem_append.mp hy2 with hyr | hy1
        · have := (hbmem y hyr).1
          linarith
        · rw [List.mem_singleton.mp hy1]
          norm_num
    have hhigh : ∀ y ∈ bridgeRatios (calculate_bridge_gaps s L), y ≤ 1 := by
      intro y hy
      rcases List.mem_cons.mp ((hmem y).mp hy) with rfl | hy2
      · norm_num
      · rcases List.mem_append.mp hy2 with hyr | hy1
        · have := (hbmem y hyr).2
          linarith
        · rw [List.mem_singleton.mp hy1]
    have hhead : (bridgeRatios (calculate_bridge_gaps s L)).headI = 0 :=
      headI_of_sorted_min hsort h0 hlow
    have hlastR : (bridgeRatios (calculate_bridge_gaps s L)).getLastI = 1 :=
      getLastI_of_sorted_max hsort h1 hhigh
    obtain ⟨r0, t, ht⟩ := List.exists_cons_of_ne_nil (List.ne_nil_of_mem h0)
    have hr0 : r0 = 0 := by
      rw [ht] at hhead
      exact hhead
    rw [hr0] at ht
    cases t with
    | nil =>
      rw [ht] at hlastR
      simp [List.getLastI] at hlastR
    | cons r1 t2 =>
      have hsegcons : bridgeSegments l (calculate_bridge_gaps s L) =
          subLine l 0 r1 ::
            (pairsOf (r1 :: t2)).filterMap (fun p =>
              if isGapRange (calculate_bridge_gaps s L) p.1 p.2 then none
              else some (subLine l p.1 p.2)) := by
        rw [bridgeSegments, ht,
          show pairsOf (0 :: r1 :: t2) = (0, r1) :: pairsOf (r1 :: t2) from rfl,
          List.filterMap_cons]
        simp only [isGapRange_zero_false s L r1]
        simp
      have hsegne : bridgeSegments l (calculate_bridge_gaps s L) ≠ [] := by
        rw [hsegcons]
        simp
      have happ : apply_bridges s l L = bridgeSegments l (calculate_bridge_gaps s L) := by
        simp only [apply_bridges, if_neg hgaps, if_neg hsegne]
      have hdne : (bridgeRatios (calculate_bridge_gaps s L)).dropLast ≠ [] := by
        rw [ht]
        simp
      have hRdec : bridgeRatios (calculate_bridge_gaps s L) =
          (bridgeRatios (calculate_bridge_gaps s L)).dropLast ++ [(1 : ℚ)] := by
        conv_lhs => rw [eq_dropLast_concat_getLastI (List.ne_nil_of_mem h0)]
        rw [hlastR]
      have hlastSeg : (bridgeSegments l (calculate_bridge_gaps s L)).getLastI =
          subLine l (bridgeRatios (calculate_bridge_gaps s L)).dropLast.getLastI 1 := by
        rw [bridgeSegments]
        conv_lhs => rw [hRdec]
        rw [pairsOf_snoc _ hdne 1, List.filterMap_append]
        have hkept : List.filterMap (fun p =>
            if isGapRange (calculate_bridge_gaps s L) p.1 p.2 then none
            else some (subLine l p.1 p.2))
            [((bridgeRatios (calculate_bridge_gaps s L)).dropLast.getLastI, 1)] =
            [subLine l (bridgeRatios (calculate_bridge_gaps s L)).dropLast.getLastI 1] := by
          simp only [List.filterMap_cons, List.filterMap_nil, isGapRange_one_false s L]
          simp
        rw [hkept]
        exact getLastI_concat _ _
      refine ⟨?_, ?_, ?_, hgb⟩
      · rw [happ]
        exact hsegne
      · rw [happ, hsegcons]
        show (subLine l 0 r1).start = l.start
        exact point_at_r_zero l
      · rw [happ, hlastSeg]
        show l.point_at_r 1 = l.endp
        exact point_at_r_one l

/-- Witness for C10: the default cut profile on the horizontal line from
`(0,0)` to `(30,0)` of length 30. -/
theorem C10_apply_bridges_endpoints_witness :
    (BridgeSettings.for_cut.Valid ∧
      Line.length ⟨⟨0, 0⟩, ⟨30, 0⟩, "CUT", 1, "CONTINUOUS", LineCategory.CUT⟩ =
        ((30 : ℚ) : ℝ) ∧ (0 : ℚ) < 30) ∧
    apply_bridges BridgeSettings.for_cut
        ⟨⟨0, 0⟩, ⟨30, 0⟩, "CUT", 1, "CONTINUOUS", LineCategory.CUT⟩ 30 ≠ [] ∧
    (apply_bridges BridgeSettings.for_cut
        ⟨⟨0, 0⟩, ⟨30, 0⟩, "CUT", 1, "CONTINUOUS", LineCategory.CUT⟩ 30).headI.start =
      (⟨⟨0, 0⟩, ⟨30, 0⟩, "CUT", 1, "CONTINUOUS", LineCategory.CUT⟩ : Line ℚ).start := by
  have hv : BridgeSettings.for_cut.Valid := by decide
  have hlen : Line.length ⟨⟨0, 0⟩, ⟨30, 0⟩, "CUT", 1, "CONTINUOUS", LineCategory.CUT⟩ =
      ((30 : ℚ) : ℝ) :=
    length_eval _ 30 (by norm_num) (by norm_num)
  have hpos : (0 : ℚ) < 30 := by norm_num
  have happ := C10_apply_bridges_endpoints BridgeSettings.for_cut
    ⟨⟨0, 0⟩, ⟨30, 0⟩, "CUT", 1, "CONTINUOUS", LineCategory.CUT⟩ 30 hv hlen hpos
  exact ⟨⟨hv, hlen, hpos⟩, happ.1, happ.2.1⟩

/-- Helper: a filterMap producing mapped values factors through the
pair-keeping filterMap. -/
theorem filterMap_if_comp (c : ℚ × ℚ → Bool) (f : ℚ × ℚ → Line ℚ) :
    ∀ l : List (ℚ × ℚ),
      l.filterMap (fun p => if c p then none else some (f p)) =
        (l.filterMap (fun p => if c p then none else some p)).map f
  | [] => rfl
  | p :: t => by
    by_cases hc : c p
    · simp [List.filterMap_cons, hc, filterMap_if_comp c f t]
    · simp [List.filterMap_cons, hc, filterMap_if_comp c f t]

/-- Helper: `expectedKept` is never empty. -/
theorem expectedKept_ne_nil (a : ℚ) (gs : List (ℚ × ℚ)) : expectedKept a gs ≠ [] := by
  cases gs <;> simp [expectedKept]

/-- Helper: one kept step of the pair filter. -/
theorem filterMap_keep (gs : List (ℚ × ℚ)) (x y : ℚ) (rest : List (ℚ × ℚ))
    (h : isGapRange gs x y = false) :
    List.filterMap (fun p => if isGapRange gs p.1 p.2 = true then none else some p)
        ((x, y) :: rest) =
      (x, y) ::
        List.filterMap (fun p => if isGapRange gs p.1 p.2 = true then none else some p)
          rest := by
  rw [List.filterMap_cons]
  simp [h]

/-- Helper: one skipped step of the pair filter. -/
theorem filterMap_skip (gs : List (ℚ × ℚ)) (x y : ℚ) (rest : List (ℚ × ℚ))
    (h : isGapRange gs x y = true) :
    List.filterMap (fun p => if isGapRange gs p.1 p.2 = true then none else some p)
        ((x, y) :: rest) =
      List.filterMap (fun p => if isGapRange gs p.1 p.2 = true then none else some p)
        rest := by
  rw [List.filterMap_cons]
  simp [h]

/-- Helper: the splitting loop of `apply_bridges` keeps exactly the
complementary ranges of the gaps when the gaps of the suffix `gs` lie to
the right of `a` and are pairwise separated, the processed prefix `P` lies
to the left of `a`, and all gaps are within bounds and at least `1e-4`
wide. -/
theorem keptEngine (gs0 : List (ℚ × ℚ))
    (hb : ∀ g ∈ gs0, 1 / 1000 ≤ g.1 ∧ g.2 ≤ 999 / 1000)
    (hw : ∀ g ∈ gs0, g.1 + 1 / 10000 ≤ g.2) :
    ∀ (gs P : List (ℚ × ℚ)) (a : ℚ),
      gs0 = P ++ gs →
      (∀ g ∈ P, g.2 ≤ a) →
      (∀ g ∈ gs, a + 1 / 10000 ≤ g.1) →
      gs.Pairwise (fun g g' => g.2 + 1 / 10000 ≤ g'.1) →
      (pairsOf (a :: gs.flatMap (fun g => [g.1, g.2]) ++ [1])).filterMap
          (fun p => if isGapRange gs0 p.1 p.2 then none else some p) =
        expectedKept a gs := by
  intro gs
  induction gs with
  | nil =>
    intro P a h0 hP hS hPw
    have hno : isGapRange gs0 a 1 = false := by
      simp only [isGapRange, List.any_eq_false, Bool.and_eq_true, decide_eq_true_eq]
      rintro g hg ⟨_, habs2⟩
      have h3 := (hb g hg).2
      rw [abs_of_nonneg (by linarith)] at habs2
      linarith
    simp [pairsOf, List.filterMap_cons, hno, expectedKept]
  | cons g t ih =>
    intro P a h0 hP hS hPw
    have hg_in : g ∈ gs0 := by
      rw [h0]
      simp
    have hga : a + 1 / 10000 ≤ g.1 := hS g (List.mem_cons_self _ _)
    have hgw : g.1 + 1 / 10000 ≤ g.2 := hw g hg_in
    have hfirst : isGapRange gs0 a g.1 = false := by
      simp only [isGapRange, List.any_eq_false, Bool.and_eq_true, decide_eq_true_eq]
      rintro g' hg' ⟨habs1, habs2⟩
      rw [h0] at hg'
      rcases List.mem_append.mp hg' with hg'P | hg'S
      · have h1 : g'.2 ≤ a := hP g' hg'P
        rw [abs_of_nonneg (by linarith)] at habs2
        linarith
      · have h1 : a + 1 / 10000 ≤ g'.1 := hS g' hg'S
        rw [abs_sub_comm, abs_of_nonneg (by linarith)] at habs1
        linarith
    have hsecond : isGapRange gs0 g.1 g.2 = true := by
      simp only [isGapRange, List.any_eq_true]
      refine ⟨g, hg_in, ?_⟩
      simp only [Bool.and_eq_true, decide_eq_true_eq]
      constructor <;>
        · rw [sub_self, abs_zero]
          norm_num
    have hP' : ∀ g' ∈ P ++ [g], g'.2 ≤ g.2 := by
      intro g' hg'
      rcases List.mem_append.mp hg' with h | h
      · have := hP g' h
        linarith
      · rw [List.mem_singleton.mp h]
    have hS' : ∀ g' ∈ t, g.2 + 1 / 10000 ≤ g'.1 := (List.pairwise_cons.mp hPw).1
    have hPw' := (List.pairwise_cons.mp hPw).2
    have h0' : gs0 = (P ++ [g]) ++ t := by
      rw [h0]
      simp
    have ihr := ih (P ++ [g]) g.2 h0' hP' hS' hPw'
    have hlist : (a :: (g :: t).flatMap (fun g => [g.1, g.2])) ++ [1] =
        a :: g.1 :: g.2 :: (t.flatMap (fun g => [g.1, g.2]) ++ [1]) := by
      simp
    rw [hlist,
      show pairsOf (a :: g.1 :: g.2 :: (t.flatMap (fun g => [g.1, g.2]) ++ [1])) =
        (a, g.1) :: (g.1, g.2) ::
          pairsOf (g.2 :: (t.flatMap (fun g => [g.1, g.2]) ++ [1])) from rfl,
      filterMap_keep gs0 a g.1 _ hfirst,
      filterMap_skip gs0 g.1 g.2 _ hsecond,
      show (g.2 :: (t.flatMap (fun g => [g.1, g.2]) ++ [1])) =
        (g.2 :: t.flatMap (fun g => [g.1, g.2])) ++ [1] from by simp,
      ihr]
    rfl

/-- Helper: with separated in-bounds gaps to the right of `a`, the boundary
list is strictly increasing. -/
theorem flat_chain_lt :
    ∀ (gs : List (ℚ × ℚ)) (a : ℚ),
      (∀ g ∈ gs, a + 1 / 10000 ≤ g.1) →
      (∀ g ∈ gs, g.1 + 1 / 10000 ≤ g.2) →
      (∀ g ∈ gs, g.2 ≤ 999 / 1000) →
      gs.Pairwise (fun g g' => g.2 + 1 / 10000 ≤ g'.1) →
      a + 1 / 10000 ≤ 1 →
      List.Chain' (· < ·) (a :: gs.flatMap (fun g => [g.1, g.2]) ++ [1])
  | [], a, _, _, _, _, ha => by
    simp only [List.flatMap_nil, List.cons_append, List.nil_append]
    exact List.chain'_pair.mpr (by linarith)
  | g :: t, a, hS, hw, hb, hPw, ha => by
    have hS' : ∀ g' ∈ t, g.2 + 1 / 10000 ≤ g'.1 := (List.pairwise_cons.mp hPw).1
    have ihr := flat_chain_lt t g.2 hS' (fun g' hg' => hw g' (List.mem_cons_of_mem _ hg'))
      (fun g' hg' => hb g' (List.mem_cons_of_mem _ hg'))
      (List.pairwise_cons.mp hPw).2
      (by have := hb g (List.mem_cons_self _ _); linarith)
    have h1 : a < g.1 := by
      have := hS g (List.mem_cons_self _ _)
      linarith
    have h2 : g.1 < g.2 := by
      have := hw g (List.mem_cons_self _ _)
      linarith
    have hlist : (a :: (g :: t).flatMap (fun g => [g.1, g.2])) ++ [1] =
        a :: g.1 :: g.2 :: (t.flatMap (fun g => [g.1, g.2]) ++ [1]) := by
      simp
    rw [hlist, List.chain'_cons, List.chain'_cons]
    refine ⟨h1, h2, ?_⟩
    rw [show (g.2 :: (t.flatMap (fun g => [g.1, g.2]) ++ [1])) =
      (g.2 :: t.flatMap (fun g => [g.1, g.2])) ++ [1] from by simp]
    exact ihr

/-- Helper: each kept range is non-degenerate and consecutive kept ranges
do not overlap, under the same separation conditions. -/
theorem expectedKept_mono :
    ∀ (gs : List (ℚ × ℚ)) (a : ℚ),
      (∀ g ∈ gs, a + 1 / 10000 ≤ g.1) →
      (∀ g ∈ gs, g.1 + 1 / 10000 ≤ g.2) →
      (∀ g ∈ gs, g.2 ≤ 999 / 1000) →
      gs.Pairwise (fun g g' => g.2 + 1 / 10000 ≤ g'.1) →
      a + 1 / 10000 ≤ 1 →
      (∀ p ∈ expectedKept a gs, p.1 < p.2) ∧
        (expectedKept a gs).Chain' (fun p q => p.2 ≤ q.1)
  | [], a, _, _, _, _, ha => by
    constructor
    · intro p hp
      rw [List.mem_singleton.mp hp]
      show a < 1
      linarith
    · simp [expectedKept]
  | g :: t, a, hS, hw, hb, hPw, ha => by
    have hga := hS g (List.mem_cons_self _ _)
    have hgw := hw g (List.mem_cons_self _ _)
    have ihr := expectedKept_mono t g.2 ((List.pairwise_cons.mp hPw).1)
      (fun g' hg' => hw g' (List.mem_cons_of_mem _ hg'))
      (fun g' hg' => hb g' (List.mem_cons_of_mem _ hg'))
      (List.pairwise_cons.mp hPw).2
      (by have := hb g (List.mem_cons_self _ _); linarith)
    constructor
    · intro p hp
      rcases List.mem_cons.mp hp with rfl | hp2
      · show a < g.1
        linarith
      · exact ihr.1 p hp2
    · show List.Chain' _ ((a, g.1) :: expectedKept g.2 t)
      cases t with
      | nil =>
        simp only [expectedKept, List.chain'_cons, List.chain'_singleton, and_true]
        show g.1 ≤ g.2
        linarith
      | cons g2 t2 =>
        simp only [expectedKept, List.chain'_cons] at ihr ⊢
        exact ⟨by show g.1 ≤ g.2; linarith, ihr.2⟩

/-- Helper: the kept ranges cover `1 - a` minus the total gap width. -/
theorem expectedKept_sum (gr : ℚ) :
    ∀ (gs : List (ℚ × ℚ)) (a : ℚ),
      (∀ g ∈ gs, g.2 - g.1 = gr) →
      ((expectedKept a gs).map (fun p => p.2 - p.1)).sum =
        1 - a - gs.length * gr
  | [], a, _ => by
    simp [expectedKept]
  | g :: t, a, h => by
    have ihr := expectedKept_sum gr t g.2 (fun g' hg' => h g' (List.mem_cons_of_mem _ hg'))
    have hg := h g (List.mem_cons_self _ _)
    simp only [expectedKept, List.map_cons, List.sum_cons, ihr, List.length_cons]
    push_cast
    linarith

/-- Helper: length of a sub-line between parameters `a` and `b` is the
parameter span times the line length. -/
theorem subLine_length (l : Line ℚ) (L : ℚ) (hL : l.length = (L : ℝ)) (a b : ℚ)
    (hab : a ≤ b) : (subLine l a b).length = ((b - a : ℚ) : ℝ) * (L : ℝ) := by
  have hin : ((subLine l a b).endp.x - (subLine l a b).start.x) ^ 2 +
      ((subLine l a b).endp.y - (subLine l a b).start.y) ^ 2 =
      ((l.endp.x - l.start.x) ^ 2 + (l.endp.y - l.start.y) ^ 2) * (b - a) ^ 2 := by
    simp only [subLine, Line.point_at_r]
    ring
  have hbase : (((l.endp.x - l.start.x) ^ 2 + (l.endp.y - l.start.y) ^ 2 : ℚ) : ℝ) =
      ((l.endp.x : ℝ) - (l.start.x : ℝ)) ^ 2 + ((l.endp.y : ℝ) - (l.start.y : ℝ)) ^ 2 := by
    push_cast
    ring
  have hLs : Real.sqrt (((l.endp.x : ℝ) - (l.start.x : ℝ)) ^ 2 +
      ((l.endp.y : ℝ) - (l.start.y : ℝ)) ^ 2) = (L : ℝ) := by
    rw [Line.length, hbase] at hL
    exact hL
  rw [Line.length, hin]
  push_cast
  rw [Real.sqrt_mul (by positivity), Real.sqrt_sq_eq_abs,
    abs_of_nonneg (by exact_mod_cast sub_nonneg.mpr hab : (0 : ℝ) ≤ (b : ℝ) - (a : ℝ)), hLs]
  ring

/-- Helper: total length of the sub-lines built from a list of forward
parameter ranges. -/
theorem sum_map_subLine_length (l : Line ℚ) (L : ℚ) (hL : l.length = (L : ℝ)) :
    ∀ ps : List (ℚ × ℚ), (∀ p ∈ ps, p.1 ≤ p.2) →
      ((ps.map (fun p => subLine l p.1 p.2)).map Line.length).sum =
        (((ps.map (fun p => p.2 - p.1)).sum : ℚ) : ℝ) * (L : ℝ)
  | [], _ => by simp
  | p :: t, h => by
    have ihr := sum_map_subLine_length l L hL t (fun q hq => h q (List.mem_cons_of_mem _ hq))
    have hp := h p (List.mem_cons_self _ _)
    simp only [List.map_cons, List.sum_cons, ihr, subLine_length l L hL p.1 p.2 hp]
    push_cast
    ring

/-- C2 (amended): when every computed gap has its full width
`gap_size / L` (no clamping), gaps are pairwise separated by at least
`1e-4` and at least `1e-4` wide, `apply_bridges` returns exactly the
complementary ranges of the gaps; the summed segment length equals
`L - n * gap_size` exactly (hence within `1e-6`), and the segments are
forward-oriented, pairwise non-overlapping and ordered along the line. -/
theorem C2_bridge_length_conservation (s : BridgeSettings) (l : Line ℚ) (L : ℚ)
    (hs : s.Valid) (hL : l.length = (L : ℝ)) (hLpos : 0 < L)
    (hne : calculate_bridge_gaps s L ≠ [])
    (hfull : ∀ g ∈ calculate_bridge_gaps s L, g.2 - g.1 = s.gap_size / L)
    (hsep : (calculate_bridge_gaps s L).Pairwise (fun g g' => g.2 + 1 / 10000 ≤ g'.1))
    (hwide : 1 / 10000 ≤ s.gap_size / L) :
    apply_bridges s l L =
      (expectedKept 0 (calculate_bridge_gaps s L)).map (fun p => subLine l p.1 p.2) ∧
    ((apply_bridges s l L).map Line.length).sum =
      (L : ℝ) - ((calculate_bridge_gaps s L).length : ℝ) * (s.gap_size : ℝ) ∧
    |((apply_bridges s l L).map Line.length).sum -
        ((L : ℝ) - ((calculate_bridge_gaps s L).length : ℝ) * (s.gap_size : ℝ))| ≤
      1 / 1000000 ∧
    (∀ p ∈ expectedKept 0 (calculate_bridge_gaps s L), p.1 < p.2) ∧
    (expectedKept 0 (calculate_bridge_gaps s L)).Chain' (fun p q => p.2 ≤ q.1) := by
  have hgb := calculate_bridge_gaps_bounds s L
  have hw : ∀ g ∈ calculate_bridge_gaps s L, g.1 + 1 / 10000 ≤ g.2 := by
    intro g hg
    have h1 := hfull g hg
    linarith
  have hb2 : ∀ g ∈ calculate_bridge_gaps s L, 1 / 1000 ≤ g.1 ∧ g.2 ≤ 999 / 1000 :=
    fun g hg => ⟨(hgb g hg).1, (hgb g hg).2.2⟩
  have hS0 : ∀ g ∈ calculate_bridge_gaps s L, (0 : ℚ) + 1 / 10000 ≤ g.1 := by
    intro g hg
    have := (hgb g hg).1
    linarith
  have hb999 : ∀ g ∈ calculate_bridge_gaps s L, g.2 ≤ 999 / 1000 :=
    fun g hg => (hgb g hg).2.2
  have ha1 : (0 : ℚ) + 1 / 10000 ≤ 1 := by norm_num
  have hchain := flat_chain_lt (calculate_bridge_gaps s L) 0 hS0 hw hb999 hsep ha1
  have hsorted : ((0 :: (calculate_bridge_gaps s L).flatMap (fun g => [g.1, g.2])) ++
      [1] : List ℚ).Sorted (· < ·) :=
    List.chain'_iff_pairwise.mp hchain
  have hRid : bridgeRatios (calculate_bridge_gaps s L) =
      (0 :: (calculate_bridge_gaps s L).flatMap (fun g => [g.1, g.2])) ++ [1] := by
    rw [bridgeRatios]
    exact sortedDedup_eq_self hsorted
  have hkept := keptEngine (calculate_bridge_gaps s L) hb2 hw
    (calculate_bridge_gaps s L) [] 0 (by simp) (by simp) hS0 hsep
  have hsegs : bridgeSegments l (calculate_bridge_gaps s L) =
      (expectedKept 0 (calculate_bridge_gaps s L)).map (fun p => subLine l p.1 p.2) := by
    rw [bridgeSegments, hRid,
      filterMap_if_comp (fun p => isGapRange (calculate_bridge_gaps s L) p.1 p.2)
        (fun p => subLine l p.1 p.2), hkept]
  have hEKne : (expectedKept 0 (calculate_bridge_gaps s L)).map
      (fun p => subLine l p.1 p.2) ≠ [] := by
    simp [expectedKept_ne_nil]
  have happ : apply_bridges s l L =
      (expectedKept 0 (calculate_bridge_gaps s L)).map (fun p => subLine l p.1 p.2) := by
    simp only [apply_bridges]
    rw [if_neg hne, hsegs, if_neg hEKne]
  have hmono := expectedKept_mono (calculate_bridge_gaps s L) 0 hS0 hw hb999 hsep ha1
  have hps : ∀ p ∈ expectedKept 0 (calculate_bridge_gaps s L), p.1 ≤ p.2 :=
    fun p hp => le_of_lt (hmono.1 p hp)
  have hsum := sum_map_subLine_length l L hL (expectedKept 0 (calculate_bridge_gaps s L)) hps
  have hsumq := expectedKept_sum (s.gap_size / L) (calculate_bridge_gaps s L) 0 hfull
  have hLne : L ≠ 0 := ne_of_gt hLpos
  have hq : ((expectedKept 0 (calculate_bridge_gaps s L)).map (fun p => p.2 - p.1)).sum * L =
      L - ((calculate_bridge_gaps s L).length : ℚ) * s.gap_size := by
    rw [hsumq]
    field_simp
  have hmain : ((apply_bridges s l L).map Line.length).sum =
      (L : ℝ) - ((calculate_bridge_gaps s L).length : ℝ) * (s.gap_size : ℝ) := by
    rw [happ, hsum]
    exact_mod_cast congrArg (fun q : ℚ => (q : ℝ)) hq
  refine ⟨happ, hmain, ?_, hmono.1, hmono.2⟩
  rw [hmain, sub_self, abs_zero]
  norm_num

/-- C2 counterexample: with valid settings `(min 1, single-max 2, target 60,
gap 10, margin 10)` the line of length `1.5` gets one centred gap that is
clamped to `(0.001, 0.999)`; the summed segment length is `0.003`, far from
`L - n * gap_size = 1.5 - 10`, violating the claimed `1e-6` bound. -/
theorem C2_conservation_counterexample :
    BridgeSettings.Valid ⟨1, 2, 60, 10, 10⟩ ∧
    Line.length ⟨⟨0, 0⟩, ⟨3 / 2, 0⟩, "CUT", 1, "CONTINUOUS", LineCategory.CUT⟩ =
      ((3 / 2 : ℚ) : ℝ) ∧
    (calculate_bridge_gaps ⟨1, 2, 60, 10, 10⟩ (3 / 2)).length = 1 ∧
    ¬(|((apply_bridges ⟨1, 2, 60, 10, 10⟩
            ⟨⟨0, 0⟩, ⟨3 / 2, 0⟩, "CUT", 1, "CONTINUOUS", LineCategory.CUT⟩
            (3 / 2)).map Line.length).sum -
        (((3 / 2 : ℚ) : ℝ) -
          ((calculate_bridge_gaps ⟨1, 2, 60, 10, 10⟩ (3 / 2)).length : ℝ) *
            (((10 : ℚ)) : ℝ))| ≤ 1 / 1000000) := by
  have hlen : Line.length ⟨⟨0, 0⟩, ⟨3 / 2, 0⟩, "CUT", 1, "CONTINUOUS", LineCategory.CUT⟩ =
      ((3 / 2 : ℚ) : ℝ) :=
    length_eval _ (3 / 2) (by norm_num) (by norm_num)
  have hgaps : calculate_bridge_gaps ⟨1, 2, 60, 10, 10⟩ (3 / 2) =
      [(1 / 1000, 999 / 1000)] := by
    norm_num [calculate_bridge_gaps, calculate_bridge_positions, List.filterMap_cons,
      max_def, min_def]
  have hratios : bridgeRatios [((1 : ℚ) / 1000, (999 : ℚ) / 1000)] =
      [0, 1 / 1000, 999 / 1000, 1] := by
    rw [bridgeRatios,
      show ((0 : ℚ) :: [((1 : ℚ) / 1000, (999 : ℚ) / 1000)].flatMap
        (fun g => [g.1, g.2])) ++ [1] = [0, 1 / 1000, 999 / 1000, 1] from by simp]
    exact sortedDedup_eq_self (by norm_num [List.sorted_cons])
  have c1 : isGapRange [((1 : ℚ) / 1000, (999 : ℚ) / 1000)] 0 (1 / 1000) = false := by
    norm_num [isGapRange, List.any_cons, List.any_nil, abs, max_def]
  have c2 : isGapRange [((1 : ℚ) / 1000, (999 : ℚ) / 1000)] (1 / 1000) (999 / 1000) =
      true := by
    norm_num [isGapRange, List.any_cons, List.any_nil, abs, max_def]
  have c3 : isGapRange [((1 : ℚ) / 1000, (999 : ℚ) / 1000)] (999 / 1000) 1 = false := by
    norm_num [isGapRange, List.any_cons, List.any_nil, abs, max_def]
  have hsegs : bridgeSegments
      ⟨⟨0, 0⟩, ⟨3 / 2, 0⟩, "CUT", 1, "CONTINUOUS", LineCategory.CUT⟩
      [((1 : ℚ) / 1000, (999 : ℚ) / 1000)] =
      [subLine ⟨⟨0, 0⟩, ⟨3 / 2, 0⟩, "CUT", 1, "CONTINUOUS", LineCategory.CUT⟩ 0 (1 / 1000),
        subLine ⟨⟨0, 0⟩, ⟨3 / 2, 0⟩, "CUT", 1, "CONTINUOUS", LineCategory.CUT⟩
          (999 / 1000) 1] := by
    rw [bridgeSegments, hratios,
      show pairsOf [0, 1 / 1000, 999 / 1000, 1] =
        [((0 : ℚ), (1 : ℚ) / 1000), ((1 : ℚ) / 1000, (999 : ℚ) / 1000),
          ((999 : ℚ) / 1000, (1 : ℚ))] from rfl]
    simp only [List.filterMap_cons, c1, c2, c3, Bool.false_eq_true, if_false, if_true,
      eq_self_iff_true, List.filterMap_nil]
  have happ : apply_bridges ⟨1, 2, 60, 10, 10⟩
      ⟨⟨0, 0⟩, ⟨3 / 2, 0⟩, "CUT", 1, "CONTINUOUS", LineCategory.CUT⟩ (3 / 2) =
      [subLine ⟨⟨0, 0⟩, ⟨3 / 2, 0⟩, "CUT", 1, "CONTINUOUS", LineCategory.CUT⟩ 0 (1 / 1000),
        subLine ⟨⟨0, 0⟩, ⟨3 / 2, 0⟩, "CUT", 1, "CONTINUOUS", LineCategory.CUT⟩
          (999 / 1000) 1] := by
    simp only [apply_bridges, hgaps]
    rw [if_neg (by simp), hsegs, if_neg (by simp)]
  refine ⟨by decide, hlen, by rw [hgaps]; rfl, ?_⟩
  rw [happ, hgaps]
  simp only [List.map_cons, List.map_nil, List.sum_cons, List.sum_nil,
    subLine_length _ (3 / 2) hlen 0 (1 / 1000) (by norm_num),
    subLine_length _ (3 / 2) hlen (999 / 1000) 1 (by norm_num)]
  rw [show ([((1 : ℚ) / 1000, (999 : ℚ) / 1000)].length : ℝ) = 1 from by norm_num]
  push_cast
  rw [abs_of_nonneg (by norm_num)]
  norm_num

/-- Helper: the default cut profile at length 200 produces three full-width
gaps centred at ratios 0.2, 0.5 and 0.8. -/
theorem cut_profile_200_gaps : calculate_bridge_gaps BridgeSettings.for_cut 200 =
    [(77 / 400, 83 / 400), (197 / 400, 203 / 400), (317 / 400, 323 / 400)] := by
  have hpos : calculate_bridge_positions BridgeSettings.for_cut 200 = [1 / 5, 1 / 2, 4 / 5] := by
    norm_num [calculate_bridge_positions, BridgeSettings.for_cut, pyRound]
    rw [show List.range (Int.toNat 3) = [0, 1, 2] from rfl]
    norm_num
  simp only [calculate_bridge_gaps, hpos]
  norm_num [List.filterMap_cons, max_def, min_def, BridgeSettings.for_cut]

/-- Witness for C2: the default cut profile on the horizontal line of
length 200; its three gaps are unclamped, full width `3/200 = 0.015` and
well separated, and the theorem yields the conservation identity there. -/
theorem C2_bridge_length_conservation_witness :
    (BridgeSettings.for_cut.Valid ∧
      Line.length ⟨⟨0, 0⟩, ⟨200, 0⟩, "CUT", 1, "CONTINUOUS", LineCategory.CUT⟩ =
        ((200 : ℚ) : ℝ) ∧
      (0 : ℚ) < 200 ∧
      calculate_bridge_gaps BridgeSettings.for_cut 200 ≠ [] ∧
      (∀ g ∈ calculate_bridge_gaps BridgeSettings.for_cut 200,
        g.2 - g.1 = BridgeSettings.for_cut.gap_size / 200) ∧
      (calculate_bridge_gaps BridgeSettings.for_cut 200).Pairwise
        (fun g g' => g.2 + 1 / 10000 ≤ g'.1) ∧
      1 / 10000 ≤ BridgeSettings.for_cut.gap_size / 200) ∧
    ((apply_bridges BridgeSettings.for_cut
        ⟨⟨0, 0⟩, ⟨200, 0⟩, "CUT", 1, "CONTINUOUS", LineCategory.CUT⟩ 200).map
          Line.length).sum =
      ((200 : ℚ) : ℝ) - ((calculate_bridge_gaps BridgeSettings.for_cut 200).length : ℝ) *
        ((BridgeSettings.for_cut.gap_size : ℝ)) := by
  have hv : BridgeSettings.for_cut.Valid := by decide
  have hlen : Line.length ⟨⟨0, 0⟩, ⟨200, 0⟩, "CUT", 1, "CONTINUOUS", LineCategory.CUT⟩ =
      ((200 : ℚ) : ℝ) :=
    length_eval _ 200 (by norm_num) (by norm_num)
  have hpos : (0 : ℚ) < 200 := by norm_num
  have hne : calculate_bridge_gaps BridgeSettings.for_cut 200 ≠ [] := by
    rw [cut_profile_200_gaps]
    simp
  have hfull : ∀ g ∈ calculate_bridge_gaps BridgeSettings.for_cut 200,
      g.2 - g.1 = BridgeSettings.for_cut.gap_size / 200 := by
    rw [cut_profile_200_gaps]
    intro g hgm
    rcases List.mem_cons.mp hgm with rfl | hgm
    · norm_num [BridgeSettings.for_cut]
    rcases List.mem_cons.mp hgm with rfl | hgm
    · norm_num [BridgeSettings.for_cut]
    rw [List.mem_singleton.mp hgm]
    norm_num [BridgeSettings.for_cut]
  have hsep : (calculate_bridge_gaps BridgeSettings.for_cut 200).Pairwise
      (fun g g' => g.2 + 1 / 10000 ≤ g'.1) := by
    rw [cut_profile_200_gaps]
    norm_num [List.pairwise_cons]
  have hwide : 1 / 10000 ≤ BridgeSettings.for_cut.gap_size / 200 := by
    norm_num [BridgeSettings.for_cut]
  exact ⟨⟨hv, hlen, hpos, hne, hfull, hsep, hwide⟩,
    (C2_bridge_length_conservation BridgeSettings.for_cut _ 200 hv hlen hpos hne hfull
      hsep hwide).2.1⟩

/-- Membership in the kept list of the element remover is membership in the
input with a negative removal decision. -/
theorem mem_kept_iff (r : ElementRemover) (es : List RemEntity) (p : BoundingBox)
    (m : RemovalMode) (e : RemEntity) :
    e ∈ (remove_external_elements r es p m).kept ↔
      e ∈ es ∧ shouldRemove r p m e = false := by
  simp [remove_external_elements, List.mem_filter]

/-- Membership in the removed list of the element remover is membership in the
input with a positive removal decision. -/
theorem mem_removed_iff (r : ElementRemover) (es : List RemEntity) (p : BoundingBox)
    (m : RemovalMode) (e : RemEntity) :
    e ∈ (remove_external_elements r es p m).removed ↔
      e ∈ es ∧ shouldRemove r p m e = true := by
  simp [remove_external_elements, List.mem_filter]

/-- C8 (corrected): `remove_external_elements` always keeps entities whose
layer case-insensitively matches the exclude list, and entities of the FIXED
category PLYWOOD — not the configured `keep_categories` list, which this
method ignores.  Entities without a determinable bounding box are kept in
every mode.  Under `REMOVE_ALL`, an entity is removed exactly when it lies
wholly outside the plywood box, its category is not PLYWOOD, and its layer is
not excluded; and lying wholly outside is exactly the four bounding-box
comparisons of `_is_completely_outside`. -/
theorem C8_removal_safety :
    (∀ (r : ElementRemover) (entities : List RemEntity) (plywood : BoundingBox)
        (mode : RemovalMode) (e : RemEntity), e ∈ entities →
        layerExcluded r e = true ∨ e.category = some LineCategory.PLYWOOD →
        e ∈ (remove_external_elements r entities plywood mode).kept) ∧
    (∀ (r : ElementRemover) (entities : List RemEntity) (plywood : BoundingBox)
        (mode : RemovalMode) (e : RemEntity), e ∈ entities →
        get_entity_bbox e = none →
        e ∈ (remove_external_elements r entities plywood mode).kept) ∧
    (∀ (r : ElementRemover) (entities : List RemEntity) (plywood : BoundingBox)
        (e : RemEntity),
        e ∈ (remove_external_elements r entities plywood RemovalMode.REMOVE_ALL).removed ↔
          e ∈ entities ∧ is_completely_outside e plywood = true ∧
            e.category ≠ some LineCategory.PLYWOOD ∧ layerExcluded r e = false) ∧
    (∀ (e : RemEntity) (plywood : BoundingBox) (b : BoundingBox),
        get_entity_bbox e = some b →
        (is_completely_outside e plywood = true ↔
          b.max_x < plywood.min_x ∨ b.min_x > plywood.max_x ∨
          b.max_y < plywood.min_y ∨ b.min_y > plywood.max_y)) := by
  refine ⟨?_, ?_, ?_, ?_⟩
  · intro r es p m e he hk
    rw [mem_kept_iff]
    refine ⟨he, ?_⟩
    simp only [shouldRemove]
    cases hout : is_completely_outside e p
    · simp
    · by_cases hcat : e.category = some LineCategory.PLYWOOD
      · simp [hcat]
      · rcases hk with hl | hc
        · simp [hl, hcat]
        · exact absurd hc hcat
  · intro r es p m e he hb
    rw [mem_kept_iff]
    refine ⟨he, ?_⟩
    have hout : is_completely_outside e p = false := by
      unfold is_completely_outside
      rw [hb]
    simp [shouldRemove, hout]
  · intro r es p e
    have hiff : shouldRemove r p RemovalMode.REMOVE_ALL e = true ↔
        (is_completely_outside e p = true ∧ e.category ≠ some LineCategory.PLYWOOD ∧
          layerExcluded r e = false) := by
      simp only [shouldRemove]
      cases hout : is_completely_outside e p
      · simp
      · by_cases hcat : e.category = some LineCategory.PLYWOOD
        · simp [hcat]
        · cases hl : layerExcluded r e
          · simp [hcat, hl]
          · simp [hcat, hl]
    rw [mem_removed_iff, hiff]
  · intro e p b hb
    unfold is_completely_outside
    rw [hb]
    simp only [Bool.or_eq_true, decide_eq_true_eq, gt_iff_lt, or_assoc]

/-- Witness for C8: under the default configuration, a PLYWOOD-category line
wholly outside the plywood box is nevertheless kept under `REMOVE_ALL`. -/
theorem C8_removal_safety_witness :
    RemEntity.line ⟨⟨200, 200⟩, ⟨210, 210⟩, "FRAME", 7, "CONTINUOUS",
        LineCategory.PLYWOOD⟩ ∈
      (remove_external_elements ElementRemover.default
        [RemEntity.line ⟨⟨200, 200⟩, ⟨210, 210⟩, "FRAME", 7, "CONTINUOUS",
          LineCategory.PLYWOOD⟩]
        ⟨0, 0, 100, 100⟩ RemovalMode.REMOVE_ALL).kept :=
  C8_removal_safety.1 ElementRemover.default _ ⟨0, 0, 100, 100⟩ RemovalMode.REMOVE_ALL _
    (by simp) (Or.inr rfl)

/-- Counterexample to the claimed keep-category behaviour: with
`keep_categories = [AUXILIARY]`, an AUXILIARY line wholly outside the plywood
box is removed under `REMOVE_ALL`, because `remove_external_elements`
hardcodes the category check to PLYWOOD and never consults
`keep_categories`. -/
theorem C8_keep_categories_counterexample :
    (⟨["PLYWOOD", "TEXT"], [LineCategory.AUXILIARY]⟩ : ElementRemover).keep_categories =
      [LineCategory.AUXILIARY] ∧
    RemEntity.line ⟨⟨200, 200⟩, ⟨210, 210⟩, "A", 3, "CONTINUOUS",
        LineCategory.AUXILIARY⟩ ∈
      (remove_external_elements ⟨["PLYWOOD", "TEXT"], [LineCategory.AUXILIARY]⟩
        [RemEntity.line ⟨⟨200, 200⟩, ⟨210, 210⟩, "A", 3, "CONTINUOUS",
          LineCategory.AUXILIARY⟩]
        ⟨0, 0, 100, 100⟩ RemovalMode.REMOVE_ALL).removed := by
  refine ⟨rfl, ?_⟩
  rw [mem_removed_iff]
  exact ⟨by simp, by decide⟩

/-- The absolute value of a conditionally negated quantity. -/
theorem abs_ite_neg (P : Prop) [Decidable P] (x : ℝ) :
    |if P then -x else x| = |x| := by
  by_cases h : P
  · simp [h]
  · simp [h]

/-- Distance from the chord midpoint to a point displaced along the unit
perpendicular of the chord by a signed amount `D`. -/
theorem center_dist (dx dy ch D mx my : ℝ)
    (hch : ch = Real.sqrt (dx * dx + dy * dy)) (hpos : 0 < ch) :
    Real.sqrt ((mx + dy / ch * D - mx) ^ 2 + (my + -(dx / ch) * D - my) ^ 2) = |D| := by
  have hch2 : ch ^ 2 = dx * dx + dy * dy := by
    rw [hch]
    exact Real.sq_sqrt (by nlinarith [mul_self_nonneg dx, mul_self_nonneg dy])
  have h1 : (mx + dy / ch * D - mx) ^ 2 + (my + -(dx / ch) * D - my) ^ 2 =
      (dx * dx + dy * dy) / ch ^ 2 * D ^ 2 := by
    field_simp
    ring
  rw [h1, ← hch2]
  have h2 : ch ^ 2 / ch ^ 2 * D ^ 2 = D ^ 2 := by
    field_simp
  rw [h2, Real.sqrt_sq_eq_abs]

/-- C3 (corrected): for every vertex pair whose first vertex has
`|bulge| > 1e-9` (the strict `has_bulge` test; at exactly `1e-9` a straight
line is emitted instead) and whose chord length `c` is at least `1e-9`,
`decompose`'s pair processing emits exactly one arc, of radius
`R = c / (2 sin(Θ/2))` with `Θ = 4 arctan |bulge|`, whose centre lies on the
perpendicular of the chord at its midpoint displaced by the SIGNED amount
`R - s` (`s = R (1 - cos(Θ/2))`), negated for negative bulge; the distance
from the midpoint to the centre is `|R - s|`, which is `R - s` only when the
arc is at most a semicircle.  Concretely the two-vertex polyline
`(0, 0, bulge = tan 22.5°) → (10, 0)` decomposes into the single arc of
radius `10 / (2 sin 45°) = 5√2 ≈ 7.0711` centred at `(5, -5)` spanning
`45°` to `135°`, an included angle of `90°`. -/
theorem C3_arc_from_bulge :
    (∀ (pl : Polyline ℝ) (v1 v2 : PolyVertex ℝ) (c R s : ℝ),
        1 / 1000000000 < |v1.bulge| →
        c = Real.sqrt ((v2.x - v1.x) * (v2.x - v1.x) + (v2.y - v1.y) * (v2.y - v1.y)) →
        1 / 1000000000 ≤ c →
        R = c / (2 * Real.sin (4 * Real.arctan |v1.bulge| / 2)) →
        s = R * (1 - Real.cos (4 * Real.arctan |v1.bulge| / 2)) →
        ∃ a : Arc ℝ,
          processPair pl v1 v2 = [Seg.arc a] ∧
          a.radius = R ∧
          a.center.x = (v1.x + v2.x) / 2 +
            (v2.y - v1.y) / c * (if v1.bulge < 0 then -(R - s) else R - s) ∧
          a.center.y = (v1.y + v2.y) / 2 -
            (v2.x - v1.x) / c * (if v1.bulge < 0 then -(R - s) else R - s) ∧
          Real.sqrt ((a.center.x - (v1.x + v2.x) / 2) ^ 2 +
            (a.center.y - (v1.y + v2.y) / 2) ^ 2) = |R - s| ∧
          a.layer = pl.layer ∧ a.color = pl.color ∧ a.linetype = pl.linetype ∧
          a.category = pl.category) ∧
    (decompose quarterPolyline =
        [Seg.arc ⟨⟨5, -5⟩, 10 / (2 * Real.sin (Real.pi / 4)), 45, 135, "0", 7,
          "CONTINUOUS", LineCategory.UNKNOWN⟩] ∧
      10 / (2 * Real.sin (Real.pi / 4)) = 5 * Real.sqrt 2 ∧
      (135 : ℝ) - 45 = 90) := by
  constructor
  · intro pl v1 v2 c R s hb hceq hcge hReq hseq
    have hbpos : (0 : ℝ) < |v1.bulge| := lt_trans (by norm_num) hb
    have hαpos : 0 < Real.arctan |v1.bulge| := by
      have h := Real.arctan_strictMono hbpos
      rwa [Real.arctan_zero] at h
    have hαlt : Real.arctan |v1.bulge| < Real.pi / 2 := Real.arctan_lt_pi_div_two _
    have hsin : 0 < Real.sin (4 * Real.arctan |v1.bulge| / 2) :=
      Real.sin_pos_of_pos_of_lt_pi (by linarith) (by linarith)
    have hcpos : 0 < c := lt_of_lt_of_le (by norm_num) hcge
    have hRpos : 0 < R := by
      rw [hReq]
      exact div_pos hcpos (by positivity)
    rcases hc : create_arc_from_bulge pl v1 v2 with _ | a
    · exfalso
      simp only [create_arc_from_bulge] at hc
      rw [← hceq] at hc
      rw [if_neg (not_lt.mpr (le_of_lt hb)), if_neg (not_lt.mpr hcge)] at hc
      exact Option.noConfusion hc
    · have hc0 := hc
      simp only [create_arc_from_bulge] at hc
      rw [← hceq] at hc
      rw [if_neg (not_lt.mpr (le_of_lt hb)), if_neg (not_lt.mpr hcge)] at hc
      rw [← hReq, ← hseq] at hc
      rw [Option.some_inj] at hc
      refine ⟨a, ?_, ?_, ?_, ?_, ?_, ?_, ?_, ?_, ?_⟩
      · simp only [processPair]
        rw [if_pos hb, hc0]
      · rw [← hc]
        exact abs_of_pos hRpos
      · rw [← hc]
      · rw [← hc]
        dsimp only
        ring
      · rw [← hc]
        dsimp only
        rw [← abs_ite_neg (v1.bulge < 0) (R - s)]
        exact center_dist (v2.x - v1.x) (v2.y - v1.y) c _
          ((v1.x + v2.x) / 2) ((v1.y + v2.y) / 2) hceq hcpos
      · rw [← hc]
      · rw [← hc]
      · rw [← hc]
      · rw [← hc]
  · have hpi : (0 : ℝ) < Real.pi := Real.pi_pos
    have htpos : 0 < Real.tan (Real.pi / 8) :=
      Real.tan_pos_of_pos_of_lt_pi_div_two (by linarith) (by linarith)
    have habs : |Real.tan (Real.pi / 8)| = Real.tan (Real.pi / 8) := abs_of_pos htpos
    have hgt : 1 / 1000000000 < Real.tan (Real.pi / 8) := by
      have h1 : Real.pi / 8 < Real.tan (Real.pi / 8) :=
        Real.lt_tan (by linarith) (by linarith)
      have h2 : 3 < Real.pi := Real.pi_gt_three
      linarith
    have harctan : Real.arctan (Real.tan (Real.pi / 8)) = Real.pi / 8 :=
      Real.arctan_tan (by linarith) (by linarith)
    have hchord : Real.sqrt (((10 : ℝ) - 0) * (10 - 0) + (0 - 0) * (0 - 0)) = 10 := by
      rw [show ((10 : ℝ) - 0) * (10 - 0) + (0 - 0) * (0 - 0) = 10 ^ 2 by norm_num]
      exact Real.sqrt_sq (by norm_num)
    have hs2 : Real.sqrt 2 * Real.sqrt 2 = 2 := Real.mul_self_sqrt (by norm_num)
    have hs2pos : 0 < Real.sqrt 2 := Real.sqrt_pos.mpr (by norm_num)
    have hRval : (10 : ℝ) / (2 * (Real.sqrt 2 / 2)) = 5 * Real.sqrt 2 := by
      rw [div_eq_iff (by positivity)]
      nlinarith [hs2]
    have hdist : 5 * Real.sqrt 2 - 5 * Real.sqrt 2 * (1 - Real.sqrt 2 / 2) = 5 := by
      nlinarith [hs2]
    have habs5 : |5 * Real.sqrt 2| = 5 * Real.sqrt 2 := abs_of_pos (by positivity)
    have hA1 : atan2 5 (-5) = 3 * Real.pi / 4 := by
      simp only [atan2]
      rw [if_neg (by norm_num), if_pos (by norm_num), if_pos (by norm_num)]
      rw [show (5 : ℝ) / (-5) = -1 by norm_num, Real.arctan_neg, Real.arctan_one]
      ring
    have hA2 : atan2 5 5 = Real.pi / 4 := by
      simp only [atan2]
      rw [if_pos (by norm_num)]
      rw [show (5 : ℝ) / 5 = 1 by norm_num, Real.arctan_one]
    have hD1 : degrees (3 * Real.pi / 4) = 135 := by
      simp only [degrees]
      field_simp
      ring
    have hD2 : degrees (Real.pi / 4) = 45 := by
      simp only [degrees]
      field_simp
      ring
    refine ⟨?_, ?_, by norm_num⟩
    · have hv : decompose quarterPolyline =
          processPair quarterPolyline ⟨0, 0, Real.tan (Real.pi / 8)⟩ ⟨10, 0, 0⟩ := by
        simp [decompose, quarterPolyline, vertexPairs, consecPairs]
      rw [hv]
      simp only [processPair, create_arc_from_bulge, quarterPolyline]
      rw [habs, hchord]
      rw [if_pos hgt]
      rw [if_neg (not_lt.mpr (le_of_lt hgt))]
      rw [if_neg (by norm_num : ¬((10 : ℝ) < 1 / 1000000000))]
      rw [harctan]
      rw [show (4 : ℝ) * (Real.pi / 8) / 2 = Real.pi / 4 by ring]
      rw [Real.sin_pi_div_four, Real.cos_pi_div_four]
      rw [if_neg (not_lt.mpr (le_of_lt htpos))]
      rw [hRval, hdist, habs5]
      rw [if_pos htpos]
      have e1 : ((0 : ℝ) + 10) / 2 + (0 - 0) / 10 * 5 = 5 := by norm_num
      have e2 : ((0 : ℝ) + 0) / 2 + -((10 - 0) / 10) * 5 = -5 := by norm_num
      rw [e1, e2]
      have e3 : (0 : ℝ) - (-5) = 5 := by norm_num
      have e4 : (0 : ℝ) - 5 = -5 := by norm_num
      have e5 : (10 : ℝ) - 5 = 5 := by norm_num
      rw [e3, e4, e5]
      rw [hA1, hA2, hD1, hD2]
      rw [if_neg (by norm_num : ¬((135 : ℝ) < 0)), if_neg (by norm_num : ¬((45 : ℝ) < 0))]
    · rw [Real.sin_pi_div_four]
      exact hRval

/-- Witness for C3: the semicircular bulge `1` on the chord `(0,0)-(10,0)`
satisfies both threshold hypotheses and yields a single arc of the stated
radius. -/
theorem C3_arc_from_bulge_witness :
    ((1 : ℝ) / 1000000000 < |(1 : ℝ)| ∧
      (1 : ℝ) / 1000000000 ≤
        Real.sqrt (((10 : ℝ) - 0) * ((10 : ℝ) - 0) + ((0 : ℝ) - 0) * ((0 : ℝ) - 0))) ∧
    ∃ a : Arc ℝ,
      processPair quarterPolyline ⟨0, 0, 1⟩ ⟨10, 0, 0⟩ = [Seg.arc a] ∧
      a.radius =
        Real.sqrt (((10 : ℝ) - 0) * ((10 : ℝ) - 0) + ((0 : ℝ) - 0) * ((0 : ℝ) - 0)) /
          (2 * Real.sin (4 * Real.arctan |(1 : ℝ)| / 2)) := by
  have hb : (1 : ℝ) / 1000000000 < |(1 : ℝ)| := by norm_num
  have hsq : Real.sqrt (((10 : ℝ) - 0) * ((10 : ℝ) - 0) + ((0 : ℝ) - 0) * ((0 : ℝ) - 0)) =
      10 := by
    rw [show ((10 : ℝ) - 0) * ((10 : ℝ) - 0) + ((0 : ℝ) - 0) * ((0 : ℝ) - 0) = 10 ^ 2 by
      norm_num]
    exact Real.sqrt_sq (by norm_num)
  have hcge : (1 : ℝ) / 1000000000 ≤
      Real.sqrt (((10 : ℝ) - 0) * ((10 : ℝ) - 0) + ((0 : ℝ) - 0) * ((0 : ℝ) - 0)) := by
    rw [hsq]
    norm_num
  obtain ⟨a, h1, h2, _⟩ := C3_arc_from_bulge.1 quarterPolyline ⟨0, 0, 1⟩ ⟨10, 0, 0⟩
    _ _ _ hb rfl hcge rfl rfl
  exact ⟨⟨hb, hcge⟩, a, h1, h2⟩

/-- Counterexample to the claimed boundary: a vertex with `|bulge|` exactly
`1e-9` satisfies the claim's `|bulge| ≥ 1e-9` (and the chord is long enough),
yet `decompose` emits a straight line, not an arc, because `has_bulge`
requires strictly `|bulge| > 1e-9`. -/
theorem C3_bulge_boundary_counterexample :
    (1 / 1000000000 : ℝ) ≤ |(1 / 1000000000 : ℝ)| ∧
    (1 / 1000000000 : ℝ) ≤
      Real.sqrt (((10 : ℝ) - 0) * ((10 : ℝ) - 0) + ((0 : ℝ) - 0) * ((0 : ℝ) - 0)) ∧
    decompose ⟨[⟨0, 0, 1 / 1000000000⟩, ⟨10, 0, 0⟩], false, "0", 7, "CONTINUOUS",
        LineCategory.UNKNOWN⟩ =
      [Seg.line ⟨⟨0, 0⟩, ⟨10, 0⟩, "0", 7, "CONTINUOUS", LineCategory.UNKNOWN⟩] := by
  have habs : |(1 / 1000000000 : ℝ)| = 1 / 1000000000 := abs_of_nonneg (by norm_num)
  have hsq : Real.sqrt (((10 : ℝ) - 0) * ((10 : ℝ) - 0) + ((0 : ℝ) - 0) * ((0 : ℝ) - 0)) =
      10 := by
    rw [show ((10 : ℝ) - 0) * ((10 : ℝ) - 0) + ((0 : ℝ) - 0) * ((0 : ℝ) - 0) = 10 ^ 2 by
      norm_num]
    exact Real.sqrt_sq (by norm_num)
  have hne : ¬((1 : ℝ) / 1000000000 < |(1 / 1000000000 : ℝ)|) := by
    rw [habs]
    exact lt_irrefl _
  refine ⟨by rw [habs], by rw [hsq]; norm_num, ?_⟩
  simp [decompose, vertexPairs, consecPairs, processPair, hne]
  intro h
  rw [abs_of_nonneg (by norm_num : (0 : ℝ) ≤ 1000000000⁻¹)] at h
  exact absurd h (lt_irrefl _)

end DieCut
